import Mathlib

/-!
Verification development for the rustnes NES emulator.

Shallow embedding of the Rust sources into Lean 4.  Machine integers
(u8 / u16 / usize / i32) are modelled as Nat (or Int for i32), with
explicit masking exactly where the Rust code masks or wrapping-adds;
where the Rust code performs a plain checked addition (which would
panic on overflow in debug builds), the embedding uses plain Nat
addition and theorems carry the range hypotheses that hold in the
program.  Arrays indexed by addresses are modelled as functions
Nat → Nat updated with Function.update.  Interior mutability
(Cell / RefCell) is modelled by threading the state explicitly.
-/

namespace RustNes

/-- ppu_registers.rs: struct PPURegisters. -/
structure PPURegisters where
  ppuaddr : Nat
  ppuctrl : Nat
  ppumask : Nat
  oamaddr : Nat
  ppuscroll_x : Nat
  ppuscroll_y : Nat
  ppustatus : Nat
  ppuscroll_toggle : Bool
  ppuaddr_toggle : Bool
  in_powerup_state : Bool
deriving DecidableEq

namespace PPURegisters

/-- ppu_registers.rs: PPURegisters::new. -/
def new : PPURegisters where
  ppuaddr := 0
  ppuctrl := 0
  ppumask := 0
  oamaddr := 0
  ppuscroll_x := 0
  ppuscroll_y := 0
  ppustatus := 0
  ppuscroll_toggle := false
  ppuaddr_toggle := false
  in_powerup_state := true

/-- ppu_registers.rs: PPURegisters::set_last_written_value. -/
def set_last_written_value (r : PPURegisters) (value : Nat) : PPURegisters :=
  { r with ppustatus := (r.ppustatus &&& 0b11100000) ||| (value &&& 0b00011111) }

/-- ppu_registers.rs: PPURegisters::set_ppuctrl. -/
def set_ppuctrl (r : PPURegisters) (value : Nat) : PPURegisters :=
  let r := r.set_last_written_value value
  if r.in_powerup_state then r
  else { r with ppuctrl := value }

/-- ppu_registers.rs: PPURegisters::set_ppumask. -/
def set_ppumask (r : PPURegisters) (value : Nat) : PPURegisters :=
  let r := r.set_last_written_value value
  if r.in_powerup_state then r
  else { r with ppumask := value }

/-- ppu_registers.rs: PPURegisters::set_oamaddr. -/
def set_oamaddr (r : PPURegisters) (value : Nat) : PPURegisters :=
  let r := { r with oamaddr := value }
  r.set_last_written_value value

/-- ppu_registers.rs: PPURegisters::set_ppuscroll. -/
def set_ppuscroll (r : PPURegisters) (value : Nat) : PPURegisters :=
  let r := r.set_last_written_value value
  if r.in_powerup_state then r
  else
    let r := if r.ppuscroll_toggle then { r with ppuscroll_y := value }
             else { r with ppuscroll_x := value }
    { r with ppuscroll_toggle := !r.ppuscroll_toggle }

/-- ppu_registers.rs: PPURegisters::set_ppuaddr. -/
def set_ppuaddr (r : PPURegisters) (value : Nat) : PPURegisters :=
  let r := r.set_last_written_value value
  if r.in_powerup_state then r
  else
    let r := if r.ppuaddr_toggle then
               { r with ppuaddr := (r.ppuaddr &&& 0xFF00) ||| (value &&& 0xFF) }
             else
               { r with ppuaddr := (r.ppuaddr &&& 0x00FF) ||| ((value <<< 8) &&& 0xFFFF) }
    { r with ppuaddr_toggle := !r.ppuaddr_toggle }

/-- ppu_registers.rs: PPURegisters::increment_ppuaddr.  The source adds
on a u16; overflow past 0xFFFF would panic there, so the embedding keeps
the plain addition. -/
def increment_ppuaddr (r : PPURegisters) : PPURegisters :=
  if r.ppuctrl &&& 0x4 == 0x4 then { r with ppuaddr := r.ppuaddr + 0x20 }
  else { r with ppuaddr := r.ppuaddr + 1 }

/-- ppu_registers.rs: PPURegisters::set_vblank. -/
def set_vblank (r : PPURegisters) : PPURegisters :=
  { r with ppustatus := r.ppustatus ||| 0b10000000 }

/-- ppu_registers.rs: PPURegisters::clear_vblank.  The mask is the u8
complement of 0b10000000. -/
def clear_vblank (r : PPURegisters) : PPURegisters :=
  { r with ppustatus := r.ppustatus &&& 0b01111111 }

/-- ppu_registers.rs: PPURegisters::status (a read with side effects:
clears VBlank and both write toggles, returns the old value). -/
def status (r : PPURegisters) : Nat × PPURegisters :=
  let result := r.ppustatus
  let r := r.clear_vblank
  (result, { r with ppuscroll_toggle := false, ppuaddr_toggle := false })

/-- ppu_registers.rs: PPURegisters::should_generate_nmi. -/
def should_generate_nmi (r : PPURegisters) : Bool :=
  r.ppuctrl &&& 0b10000000 == 0b10000000

/-- ppu_registers.rs: PPURegisters::set_powerup_state.  (No call site
exists anywhere in the repository.) -/
def set_powerup_state (r : PPURegisters) (state : Bool) : PPURegisters :=
  { r with in_powerup_state := state }

end PPURegisters

/-- vram_controller.rs: struct VRAMController.  The 0x4000-byte picture
memory and the 0xFF-byte (sic: 255, not 256) OAM array are modelled as
functions from index to byte. -/
structure VRAMController where
  memory : Nat → Nat
  oam : Nat → Nat

namespace VRAMController

/-- vram_controller.rs: VRAMController::new. -/
def new : VRAMController where
  memory := fun _ => 0
  oam := fun _ => 0

/-- vram_controller.rs: VRAMController::write8. -/
def write8 (v : VRAMController) (address : Nat) (value : Nat) : VRAMController :=
  { v with memory := Function.update v.memory address value }

/-- vram_controller.rs: VRAMController::read8. -/
def read8 (v : VRAMController) (address : Nat) : Nat :=
  v.memory address

/-- vram_controller.rs: VRAMController::write_oam_dma.  Copies
bytes_to_copy = 0xFF - oamaddr bytes from the data slice into OAM
starting at oamaddr (no wrapping; data is indexed from 0). -/
def write_oam_dma (v : VRAMController) (oamaddr : Nat) (data : Nat → Nat) : VRAMController :=
  let bytes_to_copy := 0xFF - oamaddr
  let oam := (List.range bytes_to_copy).foldl
    (fun o i => Function.update o (oamaddr + i) (data i)) v.oam
  { v with oam := oam }

/-- vram_controller.rs: VRAMController::write_oam. -/
def write_oam (v : VRAMController) (index : Nat) (value : Nat) : VRAMController :=
  { v with oam := Function.update v.oam index value }

end VRAMController

/-- ram_controller.rs: struct RamController.  The 0x10000-byte CPU
memory is a function from address to byte; the shared PPU register cell
and the VRAM RefCell are inlined as fields and threaded explicitly. -/
structure RamController where
  ppu_regs : PPURegisters
  vram : VRAMController
  memory : Nat → Nat

namespace RamController

/-- ram_controller.rs: RamController::new (with a given register file
and VRAM). -/
def new (ppu_regs : PPURegisters) (vram : VRAMController) : RamController where
  ppu_regs := ppu_regs
  vram := vram
  memory := fun _ => 0

/-- ram_controller.rs: RamController::is_lower_ram_range. -/
def is_lower_ram_range (address : Nat) : Bool :=
  address &&& 0x1FFF == address

/-- ram_controller.rs: RamController::is_io_mirror_range. -/
def is_io_mirror_range (address : Nat) : Bool :=
  address &&& 0x3FFF == address

/-- ram_controller.rs: RamController::translate_address. -/
def translate_address (address : Nat) : Nat :=
  if is_lower_ram_range address then
    address &&& 0x07FF
  else if is_io_mirror_range address then
    address &&& 0x2007
  else
    address

/-- ram_controller.rs: RamController::read_ppu_registers.  Returns the
value and the updated state for the three read ports, none otherwise.
The match is on the raw (untranslated) address, as in the source. -/
def read_ppu_registers (rc : RamController) (address : Nat) :
    Option (Nat × RamController) :=
  if address == 0x2002 then
    let (st, regs) := rc.ppu_regs.status
    some (st, { rc with ppu_regs := regs })
  else if address == 0x2004 then
    some (rc.vram.read8 address, rc)
  else if address == 0x2007 then
    let regs := rc.ppu_regs
    let ppuaddr := regs.ppuaddr
    let regs := regs.increment_ppuaddr
    some (rc.vram.read8 ppuaddr, { rc with ppu_regs := regs })
  else
    none

/-- ram_controller.rs: RamController::read8.  The PPU-port side effects
fire first; otherwise the byte comes from memory at the translated
address. -/
def read8 (rc : RamController) (address : Nat) : Nat × RamController :=
  let translated_address := translate_address address
  match rc.read_ppu_registers address with
  | some (v, rc) => (v, rc)
  | none => (rc.memory translated_address, rc)

/-- ram_controller.rs: RamController::read16.  Translates once and reads
the following byte at translated + 1, little-endian. -/
def read16 (rc : RamController) (address : Nat) : Nat :=
  let real_address := translate_address address
  rc.memory real_address ||| ((rc.memory (real_address + 1)) <<< 8)

/-- ram_controller.rs: RamController::write_ppu_registers.  Dispatch on
the raw (untranslated) address; returns the cycle penalty (i32 in the
source). -/
def write_ppu_registers (rc : RamController) (address : Nat) (value : Nat) :
    Int × RamController :=
  if address == 0x2000 then
    (0, { rc with ppu_regs := rc.ppu_regs.set_ppuctrl value })
  else if address == 0x2001 then
    (0, { rc with ppu_regs := rc.ppu_regs.set_ppumask value })
  else if address == 0x2003 then
    (0, { rc with ppu_regs := rc.ppu_regs.set_oamaddr value })
  else if address == 0x2004 then
    let regs := rc.ppu_regs
    let vram := rc.vram.write_oam regs.oamaddr value
    let regs := regs.set_oamaddr (regs.oamaddr + 1)
    (0, { rc with ppu_regs := regs, vram := vram })
  else if address == 0x2005 then
    (0, { rc with ppu_regs := rc.ppu_regs.set_ppuscroll value })
  else if address == 0x2006 then
    (0, { rc with ppu_regs := rc.ppu_regs.set_ppuaddr value })
  else if address == 0x2007 then
    let regs := rc.ppu_regs
    let vram := rc.vram.write8 regs.ppuaddr value
    let regs := regs.increment_ppuaddr
    (0, { rc with ppu_regs := regs, vram := vram })
  else if address == 0x4014 then
    let cpu_page_address := value <<< 8
    let vram := rc.vram.write_oam_dma rc.ppu_regs.oamaddr
      (fun i => rc.memory (cpu_page_address + i))
    (513, { rc with vram := vram })
  else
    (0, rc)

/-- ram_controller.rs: RamController::write8.  Stores the byte at the
translated address unconditionally, then dispatches the PPU register
ports; returns the cycle penalty. -/
def write8 (rc : RamController) (address : Nat) (value : Nat) :
    Int × RamController :=
  let rc := { rc with memory := Function.update rc.memory (translate_address address) value }
  rc.write_ppu_registers address value

end RamController

/- cpuregisters.rs: enum CPUFlags, as the u8 values of the source. -/
namespace CPUFlags

def Carry : Nat := 0b00000001
def Zero : Nat := 0b00000010
def InterruptDisable : Nat := 0b00000100
def ClearDecimalMode : Nat := 0b00001000
def BreakCommand : Nat := 0b00010000
def Unused : Nat := 0b00100000
def Overflow : Nat := 0b01000000
def Sign : Nat := 0b10000000

end CPUFlags

/-- cpuregisters.rs: struct CPURegisters.  pc is the 16-bit program
counter (AbsoluteAddress in the source), stack the full 16-bit stack
pointer ($01xx). -/
structure CPURegisters where
  accumulator : Nat
  x : Nat
  y : Nat
  status : Nat
  pc : Nat
  stack : Nat
  rts_counter : Nat
deriving DecidableEq

namespace CPURegisters

/-- cpuregisters.rs: CPURegisters::new. -/
def new : CPURegisters where
  accumulator := 0
  x := 0
  y := 0
  status := 0b00100100
  pc := 0
  stack := 0x01FD
  rts_counter := 0

/-- cpuregisters.rs: CPURegisters::increment_pc.  Returns the old pc and
advances by one with 16-bit wrap. -/
def increment_pc (r : CPURegisters) : Nat × CPURegisters :=
  (r.pc, { r with pc := (r.pc + 1) % 0x10000 })

/-- cpuregisters.rs: CPURegisters::increment_stack. -/
def increment_stack (r : CPURegisters) : CPURegisters :=
  let s := r.stack + 1
  if s > 0x01FF then { r with stack := 0x0100 } else { r with stack := s }

/-- cpuregisters.rs: CPURegisters::decrement_stack. -/
def decrement_stack (r : CPURegisters) : CPURegisters :=
  if r.stack == 0x0100 then { r with stack := 0x01FF }
  else { r with stack := r.stack - 1 }

/-- cpuregisters.rs: CPURegisters::set_stack: forces the $0100 base by
bitwise or. -/
def set_stack (r : CPURegisters) (value : Nat) : CPURegisters :=
  { r with stack := 0x0100 ||| value }

/-- cpuregisters.rs: CPURegisters::set_status. -/
def set_status (r : CPURegisters) (value : Nat) : CPURegisters :=
  { r with status := value }

/-- cpuregisters.rs: CPURegisters::set_pc. -/
def set_pc (r : CPURegisters) (value : Nat) : CPURegisters :=
  { r with pc := value }

/-- cpuregisters.rs: CPURegisters::flag. -/
def flag (r : CPURegisters) (f : Nat) : Bool :=
  r.status &&& f == f

/-- cpuregisters.rs: CPURegisters::set_flag. -/
def set_flag (r : CPURegisters) (f : Nat) : CPURegisters :=
  { r with status := r.status ||| f }

/-- cpuregisters.rs: CPURegisters::clear_flag.  The source masks with
the u8 complement of the flag. -/
def clear_flag (r : CPURegisters) (f : Nat) : CPURegisters :=
  { r with status := r.status &&& (0xFF ^^^ f) }

/-- cpuregisters.rs: CPURegisters::set_flag_if. -/
def set_flag_if (r : CPURegisters) (f : Nat) (set : Bool) : CPURegisters :=
  if set then r.set_flag f else r.clear_flag f

/-- cpuregisters.rs: CPURegisters::set_accumulator (updates Z and N). -/
def set_accumulator (r : CPURegisters) (value : Nat) : CPURegisters :=
  let r := { r with accumulator := value }
  let r := r.set_flag_if CPUFlags.Zero (r.accumulator == 0)
  r.set_flag_if CPUFlags.Sign (r.accumulator &&& 0b10000000 == 0b10000000)

end CPURegisters

namespace stack

/-- stack.rs: push — write at the current stack address, then decrement.
The i32 cycle penalty returned by write8 is dropped, as in the source. -/
def push (regs : CPURegisters) (mem : RamController) (value : Nat) :
    CPURegisters × RamController :=
  let mem := (mem.write8 regs.stack value).2
  (regs.decrement_stack, mem)

/-- stack.rs: pop — increment the stack, then read at the new stack
address.  read8 can update the shared PPU registers through the Cell,
so the updated RamController is returned as well. -/
def pop (regs : CPURegisters) (mem : RamController) :
    Nat × CPURegisters × RamController :=
  let regs := regs.increment_stack
  let (v, mem) := mem.read8 regs.stack
  (v, regs, mem)

end stack

namespace opcodes

/-- opcodes.rs: php_implied.  Pushes P with bits 4 (B) and 5 (U) set;
costs 3 cycles. -/
def php_implied (regs : CPURegisters) (mem : RamController) :
    CPURegisters × RamController × Int :=
  let (regs, mem) := stack.push regs mem
    (regs.status ||| CPUFlags.Unused ||| CPUFlags.BreakCommand)
  (regs, mem, 3)

/-- opcodes.rs: plp_implied.  Pops P, forces bit 5 set and bit 4 clear;
costs 4 cycles. -/
def plp_implied (regs : CPURegisters) (mem : RamController) :
    CPURegisters × RamController × Int :=
  let (st, regs, mem) := stack.pop regs mem
  let regs := regs.set_status ((st ||| CPUFlags.Unused) &&& (0xFF ^^^ CPUFlags.BreakCommand))
  (regs, mem, 4)

/-- opcodes.rs: txs_implied.  TXS: SP from X via set_stack; 2 cycles,
no flags touched. -/
def txs_implied (regs : CPURegisters) : CPURegisters × Int :=
  (regs.set_stack regs.x, 2)

/-- opcodes.rs: pha_implied. -/
def pha_implied (regs : CPURegisters) (mem : RamController) :
    CPURegisters × RamController × Int :=
  let (regs, mem) := stack.push regs mem regs.accumulator
  (regs, mem, 3)

/-- opcodes.rs: pla_implied. -/
def pla_implied (regs : CPURegisters) (mem : RamController) :
    CPURegisters × RamController × Int :=
  let (v, regs, mem) := stack.pop regs mem
  (regs.set_accumulator v, mem, 4)

namespace addressing_mode

/-- opcodes.rs: addressing_mode::indirect.  Reads the two operand bytes
at pc, composes the pointer little-endian, then fetches the target low
byte at the pointer and the target high byte at pointer + 1 — except
that when the pointer's low byte is 0xFF the high byte is fetched from
pointer & 0xFF00 (the preserved 6502 page-wrap bug). -/
def indirect (regs : CPURegisters) (mem : RamController) :
    Nat × CPURegisters × RamController :=
  let (a0, regs) := regs.increment_pc
  let (low, mem) := mem.read8 a0
  let (a1, regs) := regs.increment_pc
  let (high, mem) := mem.read8 a1
  let address := low ||| (high <<< 8)
  let address_high := if low == 0xFF then address &&& 0xFF00 else address + 1
  let (tlow, mem) := mem.read8 address
  let (thigh, mem) := mem.read8 address_high
  (tlow ||| (thigh <<< 8), regs, mem)

end addressing_mode

/-- opcodes.rs: jmp_indirect.  Sets pc to the resolved indirect address;
5 cycles. -/
def jmp_indirect (regs : CPURegisters) (mem : RamController) :
    CPURegisters × RamController × Int :=
  let (address, regs, mem) := addressing_mode.indirect regs mem
  (regs.set_pc address, mem, 5)

end opcodes

/-- cpu.rs: NMI_VECTOR. -/
def NMI_VECTOR : Nat := 0xFFFA

/-- cpu.rs: CPU::trigger_nmi.  Pushes the pc low byte, then the pc high
byte, then loads pc from the 16-bit little-endian word at $FFFA.  It
pushes no status byte, modifies no flags and accounts no cycles. -/
def trigger_nmi (regs : CPURegisters) (mem : RamController) :
    CPURegisters × RamController :=
  let pc := regs.pc
  let (regs, mem) := stack.push regs mem (pc &&& 0xFF)
  let (regs, mem) := stack.push regs mem ((pc >>> 8) &&& 0xFF)
  let address := mem.read16 NMI_VECTOR
  (regs.set_pc address, mem)

/-- ppu.rs: enum PPUResult. -/
inductive PPUResult where
  | Ok
  | VBlankNMI
deriving DecidableEq

/-- ppu.rs: enum FetchState. -/
inductive FetchState where
  | NameTable
  | AttributeTable
  | PatternTableTileLow
  | PatternTableTileHigh
deriving DecidableEq

/-- ppu.rs: struct PPU (the dot/scanline state machine).  All i32
fields are modelled as Int; the shared register cell is threaded
through the stepping functions explicitly. -/
structure PPU where
  frame_cycle : Int
  scanline_cycle : Int
  scanline : Int
  cycle_remainders : Int
  idle_cycle : Bool
  cycle_deduction : Int
  name_table : Nat
  attribute_table : Nat
  pattern_table_tile_low : Nat
  pattern_table_tile_high : Nat
  fetch_state : FetchState
deriving DecidableEq

namespace PPU

/-- ppu.rs: PPU::new. -/
def new : PPU where
  frame_cycle := 0
  scanline_cycle := 0
  scanline := 0
  cycle_remainders := 0
  idle_cycle := true
  cycle_deduction := 0
  name_table := 0
  attribute_table := 0
  pattern_table_tile_low := 0
  pattern_table_tile_high := 0
  fetch_state := FetchState.NameTable

/-- ppu.rs: PPU::spend_cycles.  Returns whether the full (deducted)
request could be paid from cycle_remainders. -/
def spend_cycles (p : PPU) (cycles : Int) : Bool × PPU :=
  if p.cycle_remainders == 0 then (false, p)
  else
    let cycles := cycles - p.cycle_deduction
    if p.cycle_remainders >= cycles then
      (true, { p with
        cycle_remainders := p.cycle_remainders - cycles,
        scanline_cycle := p.scanline_cycle + cycles,
        frame_cycle := p.frame_cycle + cycles,
        cycle_deduction := 0 })
    else
      (false, { p with
        scanline_cycle := p.scanline_cycle + p.cycle_remainders,
        frame_cycle := p.frame_cycle + p.cycle_remainders,
        cycle_deduction := cycles - p.cycle_remainders,
        cycle_remainders := 0 })

/-- One background fetch phase of ppu.rs::render_visible_scanlines:
the pattern "if fetch_state == want && spend_cycles(2) then set latch,
move to next state".  latch is the latched byte assignment performed on
completion (the source always latches 0), skipped for the garbage
fetches. -/
def fetch_phase (p : PPU) (want next : FetchState)
    (latch : PPU → PPU) : PPU :=
  if p.fetch_state == want then
    let (ok, p) := p.spend_cycles 2
    if ok then { latch p with fetch_state := next } else p
  else p

/-- ppu.rs: PPU::render_visible_scanlines, translated block by block.
Each dot-range block re-checks the current scanline_cycle, then runs its
phase chain in source order. -/
def render_visible_scanlines (p : PPU) : PPU :=
  let p :=
    if p.idle_cycle then
      let (ok, p) := p.spend_cycles 1
      if ok then { p with idle_cycle := false } else p
    else p
  let p :=
    if p.scanline_cycle > 0 && p.scanline_cycle < 257 then
      let p := p.fetch_phase .NameTable .AttributeTable
        (fun q => { q with name_table := 0 })
      let p := p.fetch_phase .AttributeTable .PatternTableTileLow
        (fun q => { q with attribute_table := 0 })
      let p := p.fetch_phase .PatternTableTileLow .PatternTableTileHigh
        (fun q => { q with pattern_table_tile_low := 0 })
      let p := p.fetch_phase .PatternTableTileHigh .NameTable
        (fun q => { q with pattern_table_tile_high := 0 })
      p
    else p
  let p :=
    if p.scanline_cycle > 256 && p.scanline_cycle < 321 then
      let p := p.fetch_phase .NameTable .AttributeTable (fun q => q)
      let p := p.fetch_phase .AttributeTable .PatternTableTileLow (fun q => q)
      let p := p.fetch_phase .PatternTableTileLow .PatternTableTileHigh
        (fun q => { q with pattern_table_tile_low := 0 })
      let p := p.fetch_phase .PatternTableTileHigh .NameTable
        (fun q => { q with pattern_table_tile_high := 0 })
      p
    else p
  let p :=
    if p.scanline_cycle > 320 && p.scanline_cycle < 337 then
      let p := p.fetch_phase .NameTable .AttributeTable
        (fun q => { q with name_table := 0 })
      let p := p.fetch_phase .AttributeTable .PatternTableTileLow
        (fun q => { q with attribute_table := 0 })
      let p := p.fetch_phase .PatternTableTileLow .PatternTableTileHigh
        (fun q => { q with pattern_table_tile_low := 0 })
      let p := p.fetch_phase .PatternTableTileHigh .NameTable
        (fun q => { q with pattern_table_tile_high := 0 })
      p
    else p
  let p :=
    if p.scanline_cycle > 336 && p.scanline_cycle < 341 then
      let p := p.fetch_phase .NameTable .AttributeTable (fun q => q)
      let p := p.fetch_phase .AttributeTable .NameTable (fun q => q)
      p
    else p
  p

/-- ppu.rs: PPU::process_internal.  The last Bool of the result is a
ghost flag recording whether the set_vblank branch executed in this
call; the state evolution is exactly the source's. -/
def process_internal (p : PPU) (regs : PPURegisters) :
    PPU × PPURegisters × PPUResult × Bool :=
  let p :=
    if p.scanline < 240 || p.scanline == 261 then p.render_visible_scanlines else p
  let (p, regs, result, vset) :=
    if p.scanline >= 240 && p.scanline < 261 then
      let scanline_cycle_before := p.scanline_cycle
      let p := (p.spend_cycles (min p.cycle_remainders (341 - p.scanline_cycle))).2
      if p.scanline == 241 && scanline_cycle_before < 1 && p.scanline_cycle >= 1 then
        let regs := regs.set_vblank
        if regs.should_generate_nmi then (p, regs, PPUResult.VBlankNMI, true)
        else (p, regs, PPUResult.Ok, true)
      else (p, regs, PPUResult.Ok, false)
    else (p, regs, PPUResult.Ok, false)
  let p :=
    if p.scanline_cycle == 341 then
      let p := { p with scanline_cycle := 0, scanline := p.scanline + 1, idle_cycle := true }
      if p.scanline == 262 then { p with scanline := 0, frame_cycle := 0 } else p
    else p
  (p, regs, result, vset)

/-- ppu.rs: the loop body of PPU::process, with explicit fuel.  The
source loops until one pass of process_internal leaves
cycle_remainders unchanged; under the machine invariant the remainders
strictly decrease while positive, so remainders.toNat + 2 fuel always
reaches the break (proved below).  The final Nat is the ghost count of
set_vblank events. -/
def process_loop (fuel : Nat) (p : PPU) (regs : PPURegisters)
    (result : PPUResult) (vcount : Nat) : PPU × PPURegisters × PPUResult × Nat :=
  match fuel with
  | 0 => (p, regs, result, vcount)
  | fuel + 1 =>
    let unspent_cycles := p.cycle_remainders
    let (p, regs, r, vset) := process_internal p regs
    let result := if r == PPUResult.VBlankNMI then PPUResult.VBlankNMI else result
    let vcount := vcount + (if vset then 1 else 0)
    if unspent_cycles == p.cycle_remainders then (p, regs, result, vcount)
    else process_loop fuel p regs result vcount

/-- ppu.rs: PPU::process — add the new cycles and run the loop to its
break condition. -/
def process (p : PPU) (regs : PPURegisters) (ppu_cycles : Int) :
    PPU × PPURegisters × PPUResult × Nat :=
  let p := { p with cycle_remainders := p.cycle_remainders + ppu_cycles }
  process_loop (p.cycle_remainders.toNat + 2) p regs PPUResult.Ok 0

end PPU

/- cartridge.rs: the loader.  The byte source (a File in the source) is
modelled as a list of bytes with a cursor; read_exact fails iff fewer
bytes remain than requested, seek always succeeds (Rust seeking past
EOF succeeds).  A Rust panic (explicit panic! or .unwrap() on a failed
read) is the panicked constructor; its string is the panic message
(panic messages for unwrap are abbreviated). -/

structure ByteStream where
  bytes : List Nat
  pos : Nat

/-- cartridge.rs: std::io::Read::read_exact on the modelled stream. -/
def ByteStream.read_exact (s : ByteStream) (n : Nat) : Option (List Nat × ByteStream) :=
  if s.pos + n ≤ s.bytes.length then
    some ((s.bytes.drop s.pos).take n, { s with pos := s.pos + n })
  else
    none

/-- cartridge.rs: file.seek(SeekFrom::Current(n)) — always succeeds,
even past the end of the stream. -/
def ByteStream.seek_current (s : ByteStream) (n : Nat) : ByteStream :=
  { s with pos := s.pos + n }

/-- Outcome of cartridge.rs: Cartridge::load — either a cartridge
(its PRG and CHR banks) or a Rust panic.  The source signature returns
only Cartridge; every failure is a panic, there is no error channel. -/
inductive LoadResult where
  | ok (prg_rom_banks : List (List Nat)) (chr_rom_banks : List (List Nat))
  | panicked (msg : String)
deriving DecidableEq

/-- A continuation byte of a UTF-8 sequence. -/
def utf8_cont (b : Nat) : Bool := 0x80 ≤ b && b ≤ 0xBF

/-- Validity of a 3-byte slice as UTF-8 (for cartridge.rs's
str::from_utf8(&header[0..3]).unwrap()). -/
def utf8_valid3 (b0 b1 b2 : Nat) : Bool :=
  (b0 < 0x80 && b1 < 0x80 && b2 < 0x80) ||
  (0xC2 ≤ b0 && b0 ≤ 0xDF && utf8_cont b1 && b2 < 0x80) ||
  (b0 < 0x80 && 0xC2 ≤ b1 && b1 ≤ 0xDF && utf8_cont b2) ||
  (b0 == 0xE0 && 0xA0 ≤ b1 && b1 ≤ 0xBF && utf8_cont b2) ||
  (0xE1 ≤ b0 && b0 ≤ 0xEC && utf8_cont b1 && utf8_cont b2) ||
  (b0 == 0xED && 0x80 ≤ b1 && b1 ≤ 0x9F && utf8_cont b2) ||
  (0xEE ≤ b0 && b0 ≤ 0xEF && utf8_cont b1 && utf8_cont b2)

/-- cartridge.rs: the bank-reading for loops — read count banks of the
given size with read_exact, failing if any read comes up short. -/
def read_banks (s : ByteStream) (count size : Nat) :
    Option (List (List Nat) × ByteStream) :=
  match count with
  | 0 => some ([], s)
  | c + 1 =>
    match s.read_exact size with
    | none => none
    | some (buffer, s) =>
      match read_banks s c size with
      | none => none
      | some (banks, s) => some (buffer :: banks, s)

namespace Cartridge

/-- cartridge.rs: Cartridge::load, step by step: 16-byte header read
(unwrap), UTF-8 decode of bytes 0..3 (unwrap), comparison against
"NES" (panic "Invalid header in ROM" on mismatch; byte 3 is NOT
checked), optional 512-byte trainer seek, then the PRG and CHR bank
read loops (unwrap on truncation). -/
def load (bytes : List Nat) : LoadResult :=
  let s : ByteStream := { bytes := bytes, pos := 0 }
  match s.read_exact 16 with
  | none => LoadResult.panicked "read_exact unwrap"
  | some (header, s) =>
    let b0 := header.getD 0 0
    let b1 := header.getD 1 0
    let b2 := header.getD 2 0
    if !utf8_valid3 b0 b1 b2 then LoadResult.panicked "from_utf8 unwrap"
    else if !(b0 == 0x4E && b1 == 0x45 && b2 == 0x53) then
      LoadResult.panicked "Invalid header in ROM"
    else
      let prg_rom_bank_count := header.getD 4 0
      let chr_rom_bank_count := header.getD 5 0
      let flags6 := header.getD 6 0
      let s := if flags6 &&& 0b00000100 == 0b00000100 then s.seek_current 512 else s
      match read_banks s prg_rom_bank_count 0x4000 with
      | none => LoadResult.panicked "read_exact unwrap"
      | some (prg_rom_banks, s) =>
        match read_banks s chr_rom_bank_count 0x2000 with
        | none => LoadResult.panicked "read_exact unwrap"
        | some (chr_rom_banks, _) => LoadResult.ok prg_rom_banks chr_rom_banks

end Cartridge

/-- The error type of the specification's loader contract
(spec §4.1 / §7). -/
inductive CartridgeError where
  | HeaderError
  | TruncatedError
deriving DecidableEq

/-- Transcription of the SPEC's loader contract (spec §4.1, §6, §7),
for comparison with the code's Cartridge.load: reads the 16-byte
header; validates the magic "NES" then $1A; consumes the 512-byte
trainer when flags6 bit 2 is set; reads the PRG then CHR banks;
missing bytes at any phase give TruncatedError, a bad magic gives
HeaderError, and every error is returned to the caller. -/
def load_per_spec (bytes : List Nat) :
    Except CartridgeError (List (List Nat) × List (List Nat)) :=
  let s : ByteStream := { bytes := bytes, pos := 0 }
  match s.read_exact 16 with
  | none => Except.error CartridgeError.TruncatedError
  | some (header, s) =>
    if !(header.getD 0 0 == 0x4E && header.getD 1 0 == 0x45 &&
         header.getD 2 0 == 0x53 && header.getD 3 0 == 0x1A) then
      Except.error CartridgeError.HeaderError
    else
      let prg_count := header.getD 4 0
      let chr_count := header.getD 5 0
      let flags6 := header.getD 6 0
      match (if flags6 &&& 0x04 == 0x04 then s.read_exact 512 else some ([], s)) with
      | none => Except.error CartridgeError.TruncatedError
      | some (_, s) =>
        match read_banks s prg_count 0x4000 with
        | none => Except.error CartridgeError.TruncatedError
        | some (prg, s) =>
          match read_banks s chr_count 0x2000 with
          | none => Except.error CartridgeError.TruncatedError
          | some (chr, _) => Except.pure (prg, chr)

/-- The operations of the program that move the CPU stack pointer:
stack::push, stack::pop (stack.rs) and TXS (opcodes.rs txs_implied).
Every stack-pointer mutation in the repository goes through these. -/
inductive StackOp where
  | pushv (value : Nat)
  | popv
  | txs
deriving DecidableEq

/-- Apply one stack operation to a CPU state. -/
def apply_stack_op (s : CPURegisters × RamController) (op : StackOp) :
    CPURegisters × RamController :=
  match op with
  | .pushv v => stack.push s.1 s.2 v
  | .popv => let (_, regs, mem) := stack.pop s.1 s.2
             (regs, mem)
  | .txs => ((opcodes.txs_implied s.1).1, s.2)

/-- Apply a sequence of stack operations. -/
def apply_stack_ops (s : CPURegisters × RamController) (ops : List StackOp) :
    CPURegisters × RamController :=
  ops.foldl apply_stack_op s

/-- The operations through which the running program touches the shared
PPU register cell: CPU bus reads and writes (ram_controller.rs, reached
from every opcode and from the DMA port) and PPU steps (ppu.rs).  No
code path in the repository calls PPURegisters::set_powerup_state. -/
inductive SysOp where
  | write (address value : Nat)
  | read (address : Nat)
  | ppu_step (cycles : Int)

/-- Combined bus + PPU-core state of the running system. -/
structure System where
  ram : RamController
  ppu : PPU

/-- Apply one system operation. -/
def sys_apply (s : System) (op : SysOp) : System :=
  match op with
  | .write a v => { s with ram := (s.ram.write8 a v).2 }
  | .read a => { s with ram := (s.ram.read8 a).2 }
  | .ppu_step n =>
    let (p, regs, _, _) := s.ppu.process s.ram.ppu_regs n
    { ram := { s.ram with ppu_regs := regs }, ppu := p }

/-- Apply a sequence of system operations (the main loop of main.rs is
a stream of such operations). -/
def sys_run (s : System) (ops : List SysOp) : System :=
  ops.foldl sys_apply s

/-- The three addresses with read side effects on the bus
(ram_controller.rs read_ppu_registers match arms). -/
def is_read_port (a : Nat) : Bool :=
  a == 0x2002 || a == 0x2004 || a == 0x2007

/-- The concrete bus used by the C6 witness: operand bytes $FF $02 at
pc = 0, target bytes at $02FF and $0200. -/
def c6_mem : RamController :=
  { ppu_regs := PPURegisters.new, vram := VRAMController.new,
    memory := fun a => if a = 0 then 0xFF else if a = 1 then 0x02 else if a = 0x02FF then 0x34 else if a = 0x0200 then 0x12 else 0 }

/-- The concrete CPU state of the C1 failing input: pc = $1234, status
$20 (I clear), fresh stack pointer $01FD. -/
def c1_regs : CPURegisters :=
  { CPURegisters.new with pc := 0x1234, status := 0x20 }

/-- The concrete bus of the C1 failing input: NMI vector $FFFA/$FFFB
holds $8000, all RAM zero. -/
def c1_mem : RamController :=
  { ppu_regs := PPURegisters.new, vram := VRAMController.new,
    memory := fun a => if a = 0xFFFA then 0x00 else if a = 0xFFFB then 0x80 else 0 }

/-- The concrete bus of the C2 failing input: OAMADDR = 0, CPU page 2
holds $01 in $0200–$02FE and $42 at $02FF, OAM all zero. -/
def c2_mem : RamController :=
  { ppu_regs := PPURegisters.new, vram := VRAMController.new,
    memory := fun a => if a = 0x02FF then 0x42 else if 0x0200 ≤ a ∧ a ≤ 0x02FE then 0x01 else 0 }

/-- C9 failing input: a syntactically valid header announcing one PRG
bank, with no bytes after the header. -/
def c9_truncated_stream : List Nat :=
  [0x4E, 0x45, 0x53, 0x1A, 1, 0, 0, 0, 0, 0, 0, 0, 0, 0, 0, 0]

/-- C9 failing input: a 16-byte header whose magic is "ABC" + $1A. -/
def c9_bad_magic_stream : List Nat :=
  [0x41, 0x42, 0x43, 0x1A, 0, 0, 0, 0, 0, 0, 0, 0, 0, 0, 0, 0]

/-! ### Verification definitions for the PPU frame claim -/

/-- Successor in the 4-phase background fetch cycle of
render_visible_scanlines. -/
def next_phase : FetchState → FetchState
  | FetchState.NameTable => FetchState.AttributeTable
  | FetchState.AttributeTable => FetchState.PatternTableTileLow
  | FetchState.PatternTableTileLow => FetchState.PatternTableTileHigh
  | FetchState.PatternTableTileHigh => FetchState.NameTable

/-- The fetch phase the machine is in at an odd dot sc of a render
scanline: phases run in 2-dot pairs from dot 1, cycling every 8 dots. -/
def phase_at (sc : Int) : FetchState :=
  match ((sc - 1).toNat / 2) % 4 with
  | 0 => FetchState.NameTable
  | 1 => FetchState.AttributeTable
  | 2 => FetchState.PatternTableTileLow
  | _ => FetchState.PatternTableTileHigh

/-- Alignment of a non-idle render-scanline state: the dot is in
1..341; at an odd dot at most 339 the pending phase matches the dot; at
an even dot a 2-dot phase is half-paid (cycle_deduction 1) and the
phase matches the previous odd dot; at dot 341 the scanline is complete
and the state is reset to NameTable. -/
def busy_core (p : PPU) : Prop :=
  1 ≤ p.scanline_cycle ∧ p.scanline_cycle ≤ 341 ∧
  ((p.scanline_cycle % 2 = 1 ∧ p.scanline_cycle ≤ 339 ∧ p.cycle_deduction = 0 ∧
      p.fetch_state = phase_at p.scanline_cycle) ∨
   (p.scanline_cycle % 2 = 0 ∧ p.cycle_deduction = 1 ∧
      p.fetch_state = phase_at (p.scanline_cycle - 1)) ∨
   (p.scanline_cycle = 341 ∧ p.cycle_deduction = 0 ∧
      p.fetch_state = FetchState.NameTable))

/-- State invariant of a render scanline (scanline < 240 or 261). -/
def render_core_inv (p : PPU) : Prop :=
  0 ≤ p.cycle_remainders ∧
  (p.idle_cycle = true → p.scanline_cycle = 0 ∧ p.cycle_deduction = 0 ∧
    p.fetch_state = FetchState.NameTable) ∧
  (p.idle_cycle = false → busy_core p)

/-- The machine invariant of the PPU state machine, holding at every
PPU::process boundary and preserved by every process_internal pass. -/
def PPUInv (p : PPU) : Prop :=
  0 ≤ p.scanline ∧ p.scanline ≤ 261 ∧
  0 ≤ p.scanline_cycle ∧ p.scanline_cycle ≤ 340 ∧
  0 ≤ p.cycle_remainders ∧
  ((p.scanline < 240 ∨ p.scanline = 261) → render_core_inv p) ∧
  (240 ≤ p.scanline → p.scanline ≤ 260 →
    p.cycle_deduction = 0 ∧ p.idle_cycle = true ∧
    p.fetch_state = FetchState.NameTable)

/-- The frame position of the PPU: scanline * 341 + dot, in
0..89341 under the invariant. -/
def ppu_pos (p : PPU) : Nat :=
  (p.scanline * 341 + p.scanline_cycle).toNat

/-- Number of frame positions congruent to (241, 1) — absolute dot
82182 — in the half-open interval (a, a + len] of an absolute dot
count: how many times the VBlank-set point is crossed when advancing
len dots from position a. -/
def vblank_count (a len : Nat) : Nat :=
  (a + len + 7160) / 89342 - (a + 7160) / 89342

/-- A latch function of render_visible_scanlines touches only the
latched fetch bytes: every field that the stepping logic reads is
preserved. -/
def frame_preserving (l : PPU → PPU) : Prop :=
  ∀ q : PPU, (l q).scanline = q.scanline ∧ (l q).scanline_cycle = q.scanline_cycle ∧
    (l q).cycle_remainders = q.cycle_remainders ∧
    (l q).cycle_deduction = q.cycle_deduction ∧
    (l q).idle_cycle = q.idle_cycle ∧ (l q).fetch_state = q.fetch_state ∧
    (l q).frame_cycle = q.frame_cycle

/-- Stage decomposition of render_visible_scanlines, for the proofs:
the idle-dot stage.  Definitionally equal to the first block of the
source function. -/
def stage_idle (q : PPU) : PPU :=
  if q.idle_cycle then
    let (ok, q) := q.spend_cycles 1
    if ok then { q with idle_cycle := false } else q
  else q

/-- Stage decomposition: the tile fetches of dots 1..256. -/
def stage_block1 (q : PPU) : PPU :=
  if q.scanline_cycle > 0 && q.scanline_cycle < 257 then
    let q := q.fetch_phase .NameTable .AttributeTable
      (fun r => { r with name_table := 0 })
    let q := q.fetch_phase .AttributeTable .PatternTableTileLow
      (fun r => { r with attribute_table := 0 })
    let q := q.fetch_phase .PatternTableTileLow .PatternTableTileHigh
      (fun r => { r with pattern_table_tile_low := 0 })
    let q := q.fetch_phase .PatternTableTileHigh .NameTable
      (fun r => { r with pattern_table_tile_high := 0 })
    q
  else q

/-- Stage decomposition: the garbage and sprite fetches of dots
257..320. -/
def stage_block2 (q : PPU) : PPU :=
  if q.scanline_cycle > 256 && q.scanline_cycle < 321 then
    let q := q.fetch_phase .NameTable .AttributeTable (fun r => r)
    let q := q.fetch_phase .AttributeTable .PatternTableTileLow (fun r => r)
    let q := q.fetch_phase .PatternTableTileLow .PatternTableTileHigh
      (fun r => { r with pattern_table_tile_low := 0 })
    let q := q.fetch_phase .PatternTableTileHigh .NameTable
      (fun r => { r with pattern_table_tile_high := 0 })
    q
  else q

/-- Stage decomposition: the next-scanline prefetches of dots
321..336. -/
def stage_block3 (q : PPU) : PPU :=
  if q.scanline_cycle > 320 && q.scanline_cycle < 337 then
    let q := q.fetch_phase .NameTable .AttributeTable
      (fun r => { r with name_table := 0 })
    let q := q.fetch_phase .AttributeTable .PatternTableTileLow
      (fun r => { r with attribute_table := 0 })
    let q := q.fetch_phase .PatternTableTileLow .PatternTableTileHigh
      (fun r => { r with pattern_table_tile_low := 0 })
    let q := q.fetch_phase .PatternTableTileHigh .NameTable
      (fun r => { r with pattern_table_tile_high := 0 })
    q
  else q

/-- Stage decomposition: the two dummy nametable fetches of dots
337..340. -/
def stage_block4 (q : PPU) : PPU :=
  if q.scanline_cycle > 336 && q.scanline_cycle < 341 then
    let q := q.fetch_phase .NameTable .AttributeTable (fun r => r)
    let q := q.fetch_phase .AttributeTable .NameTable (fun r => r)
    q
  else q

/-- Invariant of the intermediate states between stages of one
render_visible_scanlines pass: either still at the untouched idle dot
(then no cycles remain, or the idle stage would have fired), or busy
and aligned. -/
def mid_inv (p : PPU) : Prop :=
  0 ≤ p.cycle_remainders ∧
  ((p.idle_cycle = true ∧ p.scanline_cycle = 0 ∧ p.cycle_deduction = 0 ∧
      p.fetch_state = FetchState.NameTable ∧ p.cycle_remainders = 0) ∨
   (p.idle_cycle = false ∧ busy_core p))

/-! ### Helper lemmas about the address translation -/

theorem and_1FFF_eq_mod (a : Nat) : a &&& 0x1FFF = a % 0x2000 := by
  have h := Nat.and_pow_two_sub_one_eq_mod a 13
  norm_num at h
  omega

theorem and_3FFF_eq_mod (a : Nat) : a &&& 0x3FFF = a % 0x4000 := by
  have h := Nat.and_pow_two_sub_one_eq_mod a 14
  norm_num at h
  omega

theorem is_lower_ram_range_iff (a : Nat) :
    RamController.is_lower_ram_range a = true ↔ a < 0x2000 := by
  unfold RamController.is_lower_ram_range
  rw [beq_iff_eq, and_1FFF_eq_mod]
  constructor
  · intro h
    have := Nat.mod_lt a (y := 0x2000) (by norm_num)
    omega
  · intro h
    exact Nat.mod_eq_of_lt h

theorem is_io_mirror_range_iff (a : Nat) :
    RamController.is_io_mirror_range a = true ↔ a < 0x4000 := by
  unfold RamController.is_io_mirror_range
  rw [beq_iff_eq, and_3FFF_eq_mod]
  constructor
  · intro h
    have := Nat.mod_lt a (y := 0x4000) (by norm_num)
    omega
  · intro h
    exact Nat.mod_eq_of_lt h

theorem and_2007_of_mirror (a : Nat) (h1 : 0x2000 ≤ a) (h2 : a < 0x4000) :
    a &&& 0x2007 = 0x2000 ||| (a &&& 0x7) := by
  have hmask : (0x2007 : Nat) = 0x2000 ||| 7 := by decide
  have hd : a &&& 0x2007 = (a &&& 0x2000) ||| (a &&& 7) := by
    rw [hmask, Nat.and_or_distrib_left]
  have hb : a.testBit 13 = true := by
    rw [Nat.testBit_to_div_mod]
    have hdiv : a / 8192 = 1 := by omega
    simp [hdiv]
  have h2p : a &&& 0x2000 = 0x2000 := by
    have h := Nat.and_two_pow a 13
    norm_num at h
    rw [h, hb]
    simp
  rw [hd, h2p]

theorem translate_address_low (a : Nat) (h : a < 0x2000) :
    RamController.translate_address a = a &&& 0x07FF := by
  unfold RamController.translate_address
  rw [if_pos ((is_lower_ram_range_iff a).mpr h)]

theorem translate_address_mirror (a : Nat) (h1 : 0x2000 ≤ a) (h2 : a < 0x4000) :
    RamController.translate_address a = a &&& 0x2007 := by
  unfold RamController.translate_address
  have hl : RamController.is_lower_ram_range a = false := by
    rcases Bool.eq_false_or_eq_true (RamController.is_lower_ram_range a) with h | h
    · exact absurd ((is_lower_ram_range_iff a).mp h) (by omega)
    · exact h
  rw [hl, if_neg (by simp), if_pos ((is_io_mirror_range_iff a).mpr h2)]

theorem translate_address_high (a : Nat) (h : 0x4000 ≤ a) :
    RamController.translate_address a = a := by
  unfold RamController.translate_address
  have hl : RamController.is_lower_ram_range a = false := by
    rcases Bool.eq_false_or_eq_true (RamController.is_lower_ram_range a) with hx | hx
    · exact absurd ((is_lower_ram_range_iff a).mp hx) (by omega)
    · exact hx
  have hm : RamController.is_io_mirror_range a = false := by
    rcases Bool.eq_false_or_eq_true (RamController.is_io_mirror_range a) with hx | hx
    · exact absurd ((is_io_mirror_range_iff a).mp hx) (by omega)
    · exact hx
  rw [hl, hm]
  simp

/-! ### C3 -/

/-- C3: for every 16-bit address a, the bus's translated address equals
a &&& 0x07FF when a < 0x2000, equals 0x2000 ||| (a &&& 7) when
0x2000 ≤ a < 0x4000 (and the code's a &&& 0x2007 agrees with that form
on the whole mirror range), and equals a itself otherwise. -/
theorem c3_translate_address (a : Nat) (h : a < 0x10000) :
    (a < 0x2000 → RamController.translate_address a = a &&& 0x07FF) ∧
    (0x2000 ≤ a → a < 0x4000 →
      RamController.translate_address a = 0x2000 ||| (a &&& 0x7) ∧
      a &&& 0x2007 = 0x2000 ||| (a &&& 0x7)) ∧
    (0x4000 ≤ a → RamController.translate_address a = a) := by
  refine ⟨fun h1 => translate_address_low a h1, fun h1 h2 => ?_,
    fun h1 => translate_address_high a h1⟩
  have hm := translate_address_mirror a h1 h2
  have ha := and_2007_of_mirror a h1 h2
  exact ⟨hm.trans ha, ha⟩

/-- Witness for C3 at the concrete addresses 0x1ABC (RAM mirror),
0x2ABC (register mirror) and 0x9F00 (pass-through). -/
theorem c3_translate_address_witness :
    RamController.translate_address 0x2ABC = 0x2000 ||| (0x2ABC &&& 0x7) ∧
    RamController.translate_address 0x1ABC = 0x1ABC &&& 0x07FF ∧
    RamController.translate_address 0x9F00 = 0x9F00 := by
  refine ⟨((c3_translate_address 0x2ABC (by decide)).2.1 (by decide) (by decide)).1,
    (c3_translate_address 0x1ABC (by decide)).1 (by decide),
    (c3_translate_address 0x9F00 (by decide)).2.2 (by decide)⟩

/-! ### Helper lemmas about the bus ports -/

theorem write_ppu_registers_other (rc : RamController) (a v : Nat)
    (h1 : a ≠ 0x2000) (h2 : a ≠ 0x2001) (h3 : a ≠ 0x2003) (h4 : a ≠ 0x2004)
    (h5 : a ≠ 0x2005) (h6 : a ≠ 0x2006) (h7 : a ≠ 0x2007) (h8 : a ≠ 0x4014) :
    rc.write_ppu_registers a v = (0, rc) := by
  unfold RamController.write_ppu_registers
  simp [h1, h2, h3, h4, h5, h6, h7, h8]

theorem read8_not_port (rc : RamController) (a : Nat) (h : is_read_port a = false) :
    rc.read8 a = (rc.memory (RamController.translate_address a), rc) := by
  unfold is_read_port at h
  simp only [Bool.or_eq_false_iff, beq_eq_false_iff_ne, ne_eq] at h
  unfold RamController.read8 RamController.read_ppu_registers
  simp [h.1.1, h.1.2, h.2]

/-! ### C8 -/

set_option maxRecDepth 4000 in
/-- C8 counterexample: before the write, reading $8000 on a fresh bus
returns 0; after write8($8000, $37), reading $8000 returns $37 — the
PRG-ROM write is not ignored, refuting the claim at this input. -/
theorem c8_counterexample :
    ((RamController.new PPURegisters.new VRAMController.new).read8 0x8000).1 = 0 ∧
    ((((RamController.new PPURegisters.new VRAMController.new).write8
        0x8000 0x37).2).read8 0x8000).1 = 0x37 := by
  constructor
  · rfl
  · rfl

/-- C8 (amended): for every address in the PRG-ROM region
($8000–$FFFF) and every value, write8 stores the value at the
translated (pass-through) address with cycle penalty 0, and a
subsequent read8 at that address returns the written value. -/
theorem c8_prg_rom_write_stored (rc : RamController) (a v : Nat)
    (h1 : 0x8000 ≤ a) (h2 : a ≤ 0xFFFF) :
    (rc.write8 a v).1 = 0 ∧
    ((rc.write8 a v).2.read8 a).1 = v ∧
    (rc.write8 a v).2.memory a = v := by
  have ht : RamController.translate_address a = a :=
    translate_address_high a (by omega)
  have hw : rc.write8 a v =
      (0, { rc with memory := Function.update rc.memory a v }) := by
    unfold RamController.write8
    rw [ht]
    exact write_ppu_registers_other _ a v (by omega) (by omega) (by omega)
      (by omega) (by omega) (by omega) (by omega) (by omega)
  have hp : is_read_port a = false := by
    unfold is_read_port
    simp only [Bool.or_eq_false_iff, beq_eq_false_iff_ne, ne_eq]
    omega
  rw [hw]
  refine ⟨rfl, ?_, ?_⟩
  · rw [read8_not_port _ a hp, ht]
    simp
  · simp

/-- Witness for C8 at $8000 with value $37 on a fresh bus. -/
theorem c8_prg_rom_write_stored_witness :
    (((RamController.new PPURegisters.new VRAMController.new).write8 0x8000 0x37).1 = 0) ∧
    ((((RamController.new PPURegisters.new VRAMController.new).write8 0x8000 0x37).2.read8
        0x8000).1 = 0x37) := by
  have h := c8_prg_rom_write_stored (RamController.new PPURegisters.new VRAMController.new)
    0x8000 0x37 (by decide) (by decide)
  exact ⟨h.1, h.2.1⟩

/-! ### Helper lemmas about the stack -/

set_option maxRecDepth 4000 in
theorem or_100_of_lt (v : Nat) (h : v < 256) :
    0x0100 ||| v = 0x0100 + v := by
  have hall : ∀ i : Fin 256, (0x0100 ||| i.val) = 0x0100 + i.val := by decide
  exact hall ⟨v, h⟩

theorem translate_address_stack (s : Nat) (h1 : 0x0100 ≤ s) (h2 : s ≤ 0x01FF) :
    RamController.translate_address s = s := by
  rw [translate_address_low s (by omega)]
  have h : s &&& 0x07FF = s % 0x0800 := by
    have hx := Nat.and_pow_two_sub_one_eq_mod s 11
    norm_num at hx
    omega
  rw [h]
  exact Nat.mod_eq_of_lt (by omega)

theorem decrement_stack_stack (r : CPURegisters) :
    r.decrement_stack.stack = if r.stack = 0x0100 then 0x01FF else r.stack - 1 := by
  simp only [CPURegisters.decrement_stack]
  split <;> rename_i hc <;> simp_all

theorem decrement_stack_x (r : CPURegisters) : r.decrement_stack.x = r.x := by
  simp only [CPURegisters.decrement_stack]
  split <;> rfl

theorem increment_stack_stack (r : CPURegisters) :
    r.increment_stack.stack = if r.stack + 1 > 0x01FF then 0x0100 else r.stack + 1 := by
  simp only [CPURegisters.increment_stack]
  split <;> rename_i hc <;> simp_all

theorem increment_stack_x (r : CPURegisters) : r.increment_stack.x = r.x := by
  simp only [CPURegisters.increment_stack]
  split <;> rfl

theorem dec_inc_stack (r : CPURegisters) (h1 : 0x0100 ≤ r.stack) (h2 : r.stack ≤ 0x01FF) :
    r.decrement_stack.increment_stack.stack = r.stack := by
  rw [increment_stack_stack, decrement_stack_stack]
  split_ifs <;> omega

/-- The byte push of stack.rs lands in main memory at the stack address
and only moves the stack pointer. -/
theorem push_stack_spec (regs : CPURegisters) (mem : RamController) (v : Nat)
    (h1 : 0x0100 ≤ regs.stack) (h2 : regs.stack ≤ 0x01FF) :
    stack.push regs mem v =
      (regs.decrement_stack, { mem with memory := Function.update mem.memory regs.stack v }) := by
  unfold stack.push RamController.write8
  rw [translate_address_stack regs.stack h1 h2]
  rw [write_ppu_registers_other _ regs.stack v (by omega) (by omega) (by omega)
    (by omega) (by omega) (by omega) (by omega) (by omega)]

/-! ### C7 -/

set_option maxRecDepth 4000 in
theorem status_mask_identity (s : Nat) (h : s < 256) :
    (((s ||| 0x20 ||| 0x10) ||| 0x20) &&& 0xEF) = (s &&& 0xEF) ||| 0x20 := by
  have hall : ∀ i : Fin 256,
      (((i.val ||| 0x20 ||| 0x10) ||| 0x20) &&& 0xEF) = (i.val &&& 0xEF) ||| 0x20 := by
    decide
  exact hall ⟨s, h⟩

theorem pop_spec (regs : CPURegisters) (mem : RamController)
    (hp : is_read_port regs.increment_stack.stack = false) :
    stack.pop regs mem =
      (mem.memory (RamController.translate_address regs.increment_stack.stack),
       regs.increment_stack, mem) := by
  simp only [stack.pop]
  rw [read8_not_port _ _ hp]

/-- The pop-and-restore of opcodes.rs plp_implied, on a state whose
incremented stack pointer lies in the stack page. -/
theorem plp_spec (regs : CPURegisters) (mem : RamController)
    (h1 : 0x0100 ≤ regs.increment_stack.stack) (h2 : regs.increment_stack.stack ≤ 0x01FF) :
    opcodes.plp_implied regs mem =
      (regs.increment_stack.set_status ((mem.memory regs.increment_stack.stack ||| CPUFlags.Unused) &&& (0xFF ^^^ CPUFlags.BreakCommand)), mem, 4) := by
  have hp : is_read_port regs.increment_stack.stack = false := by
    unfold is_read_port
    simp only [Bool.or_eq_false_iff, beq_eq_false_iff_ne, ne_eq]
    omega
  simp only [opcodes.plp_implied]
  rw [pop_spec regs mem hp, translate_address_stack _ h1 h2]

/-- C7: for every CPU state whose stack pointer lies in the stack page
(the source's structural invariant) and whose status is a byte,
executing PHP then PLP leaves P equal to its prior value except that
bit 4 is cleared and bit 5 is set, and leaves the stack pointer
unchanged. -/
theorem c7_php_plp_roundtrip (regs : CPURegisters) (mem : RamController)
    (h1 : 0x0100 ≤ regs.stack) (h2 : regs.stack ≤ 0x01FF) (hst : regs.status < 256) :
    ((opcodes.plp_implied (opcodes.php_implied regs mem).1
        (opcodes.php_implied regs mem).2.1).1.status
      = (regs.status &&& 0xEF) ||| 0x20) ∧
    ((opcodes.plp_implied (opcodes.php_implied regs mem).1
        (opcodes.php_implied regs mem).2.1).1.stack = regs.stack) := by
  have hphp : opcodes.php_implied regs mem =
      (regs.decrement_stack, { mem with memory := Function.update mem.memory regs.stack (regs.status ||| CPUFlags.Unused ||| CPUFlags.BreakCommand) }, 3) := by
    unfold opcodes.php_implied
    rw [push_stack_spec regs mem _ h1 h2]
  have hs : regs.decrement_stack.increment_stack.stack = regs.stack :=
    dec_inc_stack regs h1 h2
  have hplp := plp_spec regs.decrement_stack
    ({ mem with memory := Function.update mem.memory regs.stack (regs.status ||| CPUFlags.Unused ||| CPUFlags.BreakCommand) })
    (by rw [hs]; exact h1) (by rw [hs]; exact h2)
  rw [hphp]
  dsimp only
  rw [hplp]
  dsimp only
  constructor
  · simp only [CPURegisters.set_status]
    rw [hs, Function.update_same]
    unfold CPUFlags.Unused CPUFlags.BreakCommand
    have hxor : (0xFF ^^^ 0x10 : Nat) = 0xEF := by decide
    rw [hxor]
    exact status_mask_identity regs.status hst
  · simp only [CPURegisters.set_status]
    exact hs

/-- Witness for C7 on a fresh CPU with status 0xB7 and a fresh bus. -/
theorem c7_php_plp_roundtrip_witness :
    ((opcodes.plp_implied
        (opcodes.php_implied { CPURegisters.new with status := 0xB7 }
          (RamController.new PPURegisters.new VRAMController.new)).1
        (opcodes.php_implied { CPURegisters.new with status := 0xB7 }
          (RamController.new PPURegisters.new VRAMController.new)).2.1).1.status
      = (0xB7 &&& 0xEF) ||| 0x20) ∧
    ((opcodes.plp_implied
        (opcodes.php_implied { CPURegisters.new with status := 0xB7 }
          (RamController.new PPURegisters.new VRAMController.new)).1
        (opcodes.php_implied { CPURegisters.new with status := 0xB7 }
          (RamController.new PPURegisters.new VRAMController.new)).2.1).1.stack = 0x01FD) :=
  c7_php_plp_roundtrip { CPURegisters.new with status := 0xB7 }
    (RamController.new PPURegisters.new VRAMController.new)
    (by decide) (by decide) (by decide)

/-! ### C1 -/

set_option maxRecDepth 8000 in
/-- C1 (divergence witness): on the failing input (pc = $1234, P = $20,
SP = $01FD, NMI vector -> $8000), trigger_nmi pushes the pc LOW byte
$34 first and the high byte $12 second (the claim requires high then
low), pushes no status byte (SP moves only two slots and the third slot
stays untouched), leaves P unchanged (the I flag is not set), and loads
pc from $FFFA; no 7-cycle cost exists in this code path. -/
theorem c1_nmi_entry_diverges :
    ((trigger_nmi c1_regs c1_mem).2.memory 0x01FD = 0x34) ∧
    ((trigger_nmi c1_regs c1_mem).2.memory 0x01FC = 0x12) ∧
    ((trigger_nmi c1_regs c1_mem).1.stack = 0x01FB) ∧
    ((trigger_nmi c1_regs c1_mem).2.memory 0x01FB = 0) ∧
    ((trigger_nmi c1_regs c1_mem).1.status = 0x20) ∧
    ((trigger_nmi c1_regs c1_mem).1.pc = 0x8000) :=
  ⟨rfl, rfl, rfl, rfl, rfl, rfl⟩

/-! ### C2 -/

set_option maxRecDepth 8000 in
/-- C2 (divergence witness): on the failing input (OAMADDR = 0, page 2
as in c2_mem), the $4014 write copies only 0xFF - OAMADDR = 255 bytes:
OAM[0]..OAM[254] receive $0200..$02FE but OAM[255] stays 0 even though
$02FF holds $42 (the claim requires all 256 bytes); the returned
penalty is 513 with no odd-cycle 514 case (the code has no access to
the CPU cycle parity). -/
theorem c2_oam_dma_diverges :
    ((c2_mem.write8 0x4014 0x02).1 = 513) ∧
    ((c2_mem.write8 0x4014 0x02).2.vram.oam 0 = 0x01) ∧
    ((c2_mem.write8 0x4014 0x02).2.vram.oam 0xFE = 0x01) ∧
    ((c2_mem.write8 0x4014 0x02).2.vram.oam 0xFF = 0) ∧
    (c2_mem.memory 0x02FF = 0x42) :=
  ⟨rfl, by decide, by decide, by decide, rfl⟩

/-! ### C9 -/

theorem read_banks_eq_none (size : Nat) (hs : 0 < size) :
    ∀ (count : Nat) (s : ByteStream), 0 < count →
      s.bytes.length < s.pos + count * size →
      read_banks s count size = none := by
  intro count
  induction count with
  | zero => intro s h _; omega
  | succ c ih =>
    intro s _ hlen
    rw [Nat.succ_mul] at hlen
    unfold read_banks
    by_cases hfit : s.pos + size ≤ s.bytes.length
    · have hre : s.read_exact size =
          some ((s.bytes.drop s.pos).take size, { s with pos := s.pos + size }) := by
        unfold ByteStream.read_exact
        rw [if_pos hfit]
      have hc : 0 < c := by
        rcases Nat.eq_zero_or_pos c with h0 | h0
        · subst h0; omega
        · exact h0
      have hrec := ih { s with pos := s.pos + size } hc (by simp; omega)
      simp only [hre, hrec]
    · have hre : s.read_exact size = none := by
        unfold ByteStream.read_exact
        rw [if_neg hfit]
      simp only [hre]

theorem read_banks_eq_some (size : Nat) :
    ∀ (count : Nat) (s : ByteStream), s.pos + count * size ≤ s.bytes.length →
      ∃ banks s2, read_banks s count size = some (banks, s2) ∧
        s2.pos = s.pos + count * size ∧ s2.bytes = s.bytes := by
  intro count
  induction count with
  | zero =>
    intro s _
    exact ⟨[], s, rfl, by omega, rfl⟩
  | succ c ih =>
    intro s hlen
    rw [Nat.succ_mul] at hlen
    have hfit : s.pos + size ≤ s.bytes.length := by omega
    have hre : s.read_exact size =
        some ((s.bytes.drop s.pos).take size, { s with pos := s.pos + size }) := by
      unfold ByteStream.read_exact
      rw [if_pos hfit]
    obtain ⟨banks, s2, hb, hp, hby⟩ := ih { s with pos := s.pos + size } (by simp; omega)
    refine ⟨(s.bytes.drop s.pos).take size :: banks, s2, ?_, ?_, ?_⟩
    · unfold read_banks
      simp only [hre, hb]
    · simp at hp
      rw [Nat.succ_mul]
      omega
    · simpa using hby

theorem header_getD (bytes : List Nat) (i : Nat) (hi : i < 16) :
    ((bytes.take 16).getD i 0) = bytes.getD i 0 := by
  unfold List.getD
  rw [List.get?_take hi]

/-- C9 counterexample: on a truncated stream (a valid header announcing
one PRG bank, then nothing) the code panics where the claimed contract
returns TruncatedError to the caller; on a bad-magic stream the code
panics where the claimed contract returns HeaderError.  The loader has
no error channel at all: failures abort. -/
theorem c9_counterexample :
    Cartridge.load c9_truncated_stream = LoadResult.panicked "read_exact unwrap" ∧
    load_per_spec c9_truncated_stream = Except.error CartridgeError.TruncatedError ∧
    Cartridge.load c9_bad_magic_stream = LoadResult.panicked "Invalid header in ROM" ∧
    load_per_spec c9_bad_magic_stream = Except.error CartridgeError.HeaderError := by
  refine ⟨by decide, by rfl, by decide, by rfl⟩

/-- C9 (amended): Cartridge.load aborts with a panic instead of
returning an error value: a stream shorter than the 16-byte header
panics at the header read; a header whose first three bytes are not
"NES" panics with "Invalid header in ROM" (byte 3, the $1A of the iNES
magic, is never examined); a truncated PRG bank read panics; and when
the magic's first three bytes match and enough bytes are present the
load succeeds regardless of byte 3. -/
theorem c9_load_aborts (bytes : List Nat) :
    (bytes.length < 16 → Cartridge.load bytes = LoadResult.panicked "read_exact unwrap") ∧
    (∀ b0 b1 b2, 16 ≤ bytes.length →
      b0 = bytes.getD 0 0 → b1 = bytes.getD 1 0 → b2 = bytes.getD 2 0 →
      utf8_valid3 b0 b1 b2 = true → ¬(b0 = 0x4E ∧ b1 = 0x45 ∧ b2 = 0x53) →
      Cartridge.load bytes = LoadResult.panicked "Invalid header in ROM") ∧
    (16 ≤ bytes.length →
      bytes.getD 0 0 = 0x4E → bytes.getD 1 0 = 0x45 → bytes.getD 2 0 = 0x53 →
      bytes.getD 6 0 &&& 0x04 ≠ 0x04 →
      0 < bytes.getD 4 0 →
      bytes.length < 16 + bytes.getD 4 0 * 0x4000 →
      Cartridge.load bytes = LoadResult.panicked "read_exact unwrap") ∧
    (16 ≤ bytes.length →
      bytes.getD 0 0 = 0x4E → bytes.getD 1 0 = 0x45 → bytes.getD 2 0 = 0x53 →
      bytes.getD 6 0 &&& 0x04 ≠ 0x04 →
      16 + bytes.getD 4 0 * 0x4000 + bytes.getD 5 0 * 0x2000 ≤ bytes.length →
      ∃ prg chr, Cartridge.load bytes = LoadResult.ok prg chr) := by
  refine ⟨?_, ?_, ?_, ?_⟩
  · intro hshort
    unfold Cartridge.load
    have hre : ({ bytes := bytes, pos := 0 } : ByteStream).read_exact 16 = none := by
      unfold ByteStream.read_exact
      rw [if_neg (by simp; omega)]
    simp only [hre]
  · intro b0 b1 b2 h16 hb0 hb1 hb2 hval hmag
    unfold Cartridge.load
    have hre : ({ bytes := bytes, pos := 0 } : ByteStream).read_exact 16 =
        some ((bytes.drop 0).take 16, { bytes := bytes, pos := 0 + 16 }) := by
      unfold ByteStream.read_exact
      rw [if_pos (by simp; omega)]
    simp only [hre, List.drop_zero]
    rw [header_getD bytes 0 (by omega), header_getD bytes 1 (by omega),
      header_getD bytes 2 (by omega), ← hb0, ← hb1, ← hb2, hval]
    have hb : (b0 == 0x4E && b1 == 0x45 && b2 == 0x53) = false := by
      rcases Bool.eq_false_or_eq_true (b0 == 0x4E && b1 == 0x45 && b2 == 0x53) with h | h
      · exfalso
        apply hmag
        simp only [Bool.and_eq_true, beq_iff_eq] at h
        exact ⟨h.1.1, h.1.2, h.2⟩
      · exact h
    rw [hb]
    rfl
  · intro h16 hb0 hb1 hb2 hflags hprg hlen
    unfold Cartridge.load
    have hre : ({ bytes := bytes, pos := 0 } : ByteStream).read_exact 16 =
        some ((bytes.drop 0).take 16, { bytes := bytes, pos := 0 + 16 }) := by
      unfold ByteStream.read_exact
      rw [if_pos (by simp; omega)]
    simp only [hre, List.drop_zero]
    rw [header_getD bytes 0 (by omega), header_getD bytes 1 (by omega),
      header_getD bytes 2 (by omega), header_getD bytes 4 (by omega),
      header_getD bytes 5 (by omega), header_getD bytes 6 (by omega),
      hb0, hb1, hb2]
    have hval : utf8_valid3 0x4E 0x45 0x53 = true := by decide
    rw [hval]
    have hfl : (bytes.getD 6 0 &&& 0x04 == 0x04) = false := by
      simp only [beq_eq_false_iff_ne, ne_eq]
      exact hflags
    rw [hfl]
    simp only [hfl, Bool.false_eq_true, if_false]
    have hnone := read_banks_eq_none 0x4000 (by decide) (bytes.getD 4 0)
      { bytes := bytes, pos := 0 + 16 } hprg (by dsimp only; omega)
    simp only [hnone]
    rfl
  · intro h16 hb0 hb1 hb2 hflags hlen
    unfold Cartridge.load
    have hre : ({ bytes := bytes, pos := 0 } : ByteStream).read_exact 16 =
        some ((bytes.drop 0).take 16, { bytes := bytes, pos := 0 + 16 }) := by
      unfold ByteStream.read_exact
      rw [if_pos (by simp; omega)]
    simp only [hre, List.drop_zero]
    rw [header_getD bytes 0 (by omega), header_getD bytes 1 (by omega),
      header_getD bytes 2 (by omega), header_getD bytes 4 (by omega),
      header_getD bytes 5 (by omega), header_getD bytes 6 (by omega),
      hb0, hb1, hb2]
    have hval : utf8_valid3 0x4E 0x45 0x53 = true := by decide
    rw [hval]
    have hfl : (bytes.getD 6 0 &&& 0x04 == 0x04) = false := by
      simp only [beq_eq_false_iff_ne, ne_eq]
      exact hflags
    rw [hfl]
    simp only [hfl, Bool.false_eq_true, if_false]
    obtain ⟨prg, s2, hp, hpos, hby⟩ := read_banks_eq_some 0x4000 (bytes.getD 4 0)
      { bytes := bytes, pos := 0 + 16 } (by dsimp only; omega)
    obtain ⟨chr, s3, hc, _, _⟩ := read_banks_eq_some 0x2000 (bytes.getD 5 0)
      s2 (by rw [hpos, hby]; dsimp only; omega)
    refine ⟨prg, chr, ?_⟩
    simp only [hp, hc]
    rfl

/-- Witness for C9 (amended) at the concrete bad-magic stream. -/
theorem c9_load_aborts_witness :
    Cartridge.load c9_bad_magic_stream = LoadResult.panicked "Invalid header in ROM" :=
  (c9_load_aborts c9_bad_magic_stream).2.1 0x41 0x42 0x43 (by decide)
    (by decide) (by decide) (by decide) (by decide) (by decide)

/-! ### C4 -/

theorem set_last_written_value_powerup (r : PPURegisters) (v : Nat) :
    (r.set_last_written_value v).in_powerup_state = r.in_powerup_state := rfl

theorem set_ppuctrl_powerup (r : PPURegisters) (v : Nat) :
    (r.set_ppuctrl v).in_powerup_state = r.in_powerup_state := by
  simp only [PPURegisters.set_ppuctrl]
  split <;> rfl

theorem set_ppumask_powerup (r : PPURegisters) (v : Nat) :
    (r.set_ppumask v).in_powerup_state = r.in_powerup_state := by
  simp only [PPURegisters.set_ppumask]
  split <;> rfl

theorem set_oamaddr_powerup (r : PPURegisters) (v : Nat) :
    (r.set_oamaddr v).in_powerup_state = r.in_powerup_state := rfl

theorem set_ppuscroll_powerup (r : PPURegisters) (v : Nat) :
    (r.set_ppuscroll v).in_powerup_state = r.in_powerup_state := by
  simp only [PPURegisters.set_ppuscroll]
  split
  · rfl
  · split <;> rfl

theorem set_ppuaddr_powerup (r : PPURegisters) (v : Nat) :
    (r.set_ppuaddr v).in_powerup_state = r.in_powerup_state := by
  simp only [PPURegisters.set_ppuaddr]
  split
  · rfl
  · split <;> rfl

theorem increment_ppuaddr_powerup (r : PPURegisters) :
    r.increment_ppuaddr.in_powerup_state = r.in_powerup_state := by
  simp only [PPURegisters.increment_ppuaddr]
  split <;> rfl

theorem status_powerup (r : PPURegisters) :
    (r.status).2.in_powerup_state = r.in_powerup_state := rfl

theorem set_vblank_powerup (r : PPURegisters) :
    r.set_vblank.in_powerup_state = r.in_powerup_state := rfl

theorem read8_powerup (rc : RamController) (a : Nat) :
    (rc.read8 a).2.ppu_regs.in_powerup_state = rc.ppu_regs.in_powerup_state := by
  unfold RamController.read8 RamController.read_ppu_registers
  by_cases h1 : a = 0x2002
  · simp [h1, PPURegisters.status, PPURegisters.clear_vblank]
  · by_cases h2 : a = 0x2004
    · simp [h1, h2]
    · by_cases h3 : a = 0x2007
      · simp [h1, h2, h3, increment_ppuaddr_powerup]
      · simp [h1, h2, h3]

theorem write8_powerup (rc : RamController) (a v : Nat) :
    (rc.write8 a v).2.ppu_regs.in_powerup_state = rc.ppu_regs.in_powerup_state := by
  unfold RamController.write8 RamController.write_ppu_registers
  by_cases h1 : a = 0x2000
  · simp [h1, set_ppuctrl_powerup]
  · by_cases h2 : a = 0x2001
    · simp [h1, h2, set_ppumask_powerup]
    · by_cases h3 : a = 0x2003
      · simp [h1, h2, h3, set_oamaddr_powerup]
      · by_cases h4 : a = 0x2004
        · simp [h1, h2, h3, h4, set_oamaddr_powerup]
        · by_cases h5 : a = 0x2005
          · simp [h1, h2, h3, h4, h5, set_ppuscroll_powerup]
          · by_cases h6 : a = 0x2006
            · simp [h1, h2, h3, h4, h5, h6, set_ppuaddr_powerup]
            · by_cases h7 : a = 0x2007
              · simp [h1, h2, h3, h4, h5, h6, h7, increment_ppuaddr_powerup]
              · by_cases h8 : a = 0x4014
                · simp [h1, h2, h3, h4, h5, h6, h7, h8]
                · simp [h1, h2, h3, h4, h5, h6, h7, h8]

theorem process_internal_powerup (p : PPU) (regs : PPURegisters) :
    (p.process_internal regs).2.1.in_powerup_state = regs.in_powerup_state := by
  simp only [PPU.process_internal]
  split_ifs <;> rfl

theorem process_loop_powerup (fuel : Nat) :
    ∀ (p : PPU) (regs : PPURegisters) (result : PPUResult) (vcount : Nat),
      (PPU.process_loop fuel p regs result vcount).2.1.in_powerup_state =
        regs.in_powerup_state := by
  induction fuel with
  | zero => intro p regs result vcount; rfl
  | succ f ih =>
    intro p regs result vcount
    have hpi := process_internal_powerup p regs
    rcases hpe : p.process_internal regs with ⟨p2, regs2, r2, vset2⟩
    rw [hpe] at hpi
    unfold PPU.process_loop
    simp only [hpe]
    split
    · exact hpi
    · rw [ih]
      exact hpi

theorem process_powerup (p : PPU) (regs : PPURegisters) (n : Int) :
    (p.process regs n).2.1.in_powerup_state = regs.in_powerup_state := by
  unfold PPU.process
  exact process_loop_powerup _ _ _ _ _

theorem sys_apply_powerup (s : System) (op : SysOp) :
    (sys_apply s op).ram.ppu_regs.in_powerup_state =
      s.ram.ppu_regs.in_powerup_state := by
  cases op with
  | write a v => exact write8_powerup s.ram a v
  | read a => exact read8_powerup s.ram a
  | ppu_step n => exact process_powerup s.ppu s.ram.ppu_regs n

theorem sys_run_powerup (ops : List SysOp) :
    ∀ s : System, (sys_run s ops).ram.ppu_regs.in_powerup_state =
      s.ram.ppu_regs.in_powerup_state := by
  induction ops with
  | nil => intro s; rfl
  | cons op rest ih =>
    intro s
    have hs : sys_run s (op :: rest) = sys_run (sys_apply s op) rest := rfl
    rw [hs, ih, sys_apply_powerup]

/-- C4 (code bug): nothing in the program ever calls set_powerup_state,
so the power-up ignore window never ends: from the initial register
file (in_powerup_state = true, as the program constructs it), every
sequence of bus reads, bus writes and PPU steps leaves
in_powerup_state true; while it is true, writes to PPUCTRL, PPUMASK,
PPUSCROLL and PPUADDR are ignored for value although the lower 5 bits
of PPUSTATUS still latch the written value — so such writes never take
effect, where the claim requires them to take effect after ~29,658 CPU
cycles. -/
theorem c4_powerup_window_never_ends (s : System) (ops : List SysOp)
    (h : s.ram.ppu_regs.in_powerup_state = true) :
    ((sys_run s ops).ram.ppu_regs.in_powerup_state = true) ∧
    (PPURegisters.new.in_powerup_state = true) ∧
    (∀ (r : PPURegisters) (v : Nat), r.in_powerup_state = true →
      (r.set_ppuctrl v).ppuctrl = r.ppuctrl ∧
      (r.set_ppumask v).ppumask = r.ppumask ∧
      (r.set_ppuscroll v).ppuscroll_x = r.ppuscroll_x ∧
      (r.set_ppuscroll v).ppuscroll_y = r.ppuscroll_y ∧
      (r.set_ppuaddr v).ppuaddr = r.ppuaddr ∧
      (r.set_ppuctrl v).ppustatus =
        (r.ppustatus &&& 0b11100000) ||| (v &&& 0b00011111)) := by
  refine ⟨by rw [sys_run_powerup ops s]; exact h, rfl, ?_⟩
  intro r v hr
  have hu : (r.set_last_written_value v).in_powerup_state = true := by
    rw [set_last_written_value_powerup]; exact hr
  refine ⟨?_, ?_, ?_, ?_, ?_, ?_⟩
  · unfold PPURegisters.set_ppuctrl
    rw [if_pos hu]
    rfl
  · unfold PPURegisters.set_ppumask
    rw [if_pos hu]
    rfl
  · unfold PPURegisters.set_ppuscroll
    rw [if_pos hu]
    rfl
  · unfold PPURegisters.set_ppuscroll
    rw [if_pos hu]
    rfl
  · unfold PPURegisters.set_ppuaddr
    rw [if_pos hu]
    rfl
  · unfold PPURegisters.set_ppuctrl
    rw [if_pos hu]
    rfl

/-- Witness for C4: a PPUCTRL write of $80 on the fresh system leaves
PPUCTRL ignored-forever (the window invariant holds after the write). -/
theorem c4_powerup_window_never_ends_witness :
    (sys_run { ram := RamController.new PPURegisters.new VRAMController.new, ppu := PPU.new }
      [SysOp.write 0x2000 0x80]).ram.ppu_regs.in_powerup_state = true :=
  (c4_powerup_window_never_ends
    { ram := RamController.new PPURegisters.new VRAMController.new, ppu := PPU.new }
    [SysOp.write 0x2000 0x80] rfl).1

/-! ### C6 -/

/-- C6: for every indirect JMP, letting the operand pointer be the
little-endian word fetched at pc, the target low byte is read at the
pointer; the target high byte is read at pointer &&& 0xFF00 when the
pointer's low byte is 0xFF (the preserved 6502 page-wrap bug), and at
pointer + 1 otherwise.  The hypotheses keep all four fetch addresses
away from the three PPU read ports so the fetches are plain memory
reads. -/
theorem c6_jmp_indirect_page_wrap (regs : CPURegisters) (mem : RamController)
    (hp0 : is_read_port regs.pc = false)
    (hp1 : is_read_port ((regs.pc + 1) % 0x10000) = false) :
    (∀ operand,
      operand = mem.memory (RamController.translate_address regs.pc) |||
        (mem.memory (RamController.translate_address ((regs.pc + 1) % 0x10000)) <<< 8) →
      mem.memory (RamController.translate_address regs.pc) = 0xFF →
      is_read_port operand = false → is_read_port (operand &&& 0xFF00) = false →
      (opcodes.jmp_indirect regs mem).1.pc =
        mem.memory (RamController.translate_address operand) |||
        (mem.memory (RamController.translate_address (operand &&& 0xFF00)) <<< 8)) ∧
    (∀ operand,
      operand = mem.memory (RamController.translate_address regs.pc) |||
        (mem.memory (RamController.translate_address ((regs.pc + 1) % 0x10000)) <<< 8) →
      mem.memory (RamController.translate_address regs.pc) ≠ 0xFF →
      is_read_port operand = false → is_read_port (operand + 1) = false →
      (opcodes.jmp_indirect regs mem).1.pc =
        mem.memory (RamController.translate_address operand) |||
        (mem.memory (RamController.translate_address (operand + 1)) <<< 8)) := by
  constructor
  · intro operand hop hlo hq1 hq2
    simp only [opcodes.jmp_indirect, opcodes.addressing_mode.indirect,
      CPURegisters.increment_pc]
    rw [read8_not_port _ _ hp0]
    dsimp only
    rw [read8_not_port _ _ hp1]
    dsimp only
    rw [← hop, hlo]
    simp only [beq_self_eq_true, if_true]
    rw [read8_not_port _ _ hq1]
    dsimp only
    rw [read8_not_port _ _ hq2]
    dsimp only
    rfl
  · intro operand hop hlo hq1 hq2
    simp only [opcodes.jmp_indirect, opcodes.addressing_mode.indirect,
      CPURegisters.increment_pc]
    rw [read8_not_port _ _ hp0]
    dsimp only
    rw [read8_not_port _ _ hp1]
    dsimp only
    rw [← hop]
    have hbe : (mem.memory (RamController.translate_address regs.pc) == 0xFF) = false := by
      simp only [beq_eq_false_iff_ne, ne_eq]
      exact hlo
    rw [hbe]
    simp only [Bool.false_eq_true, if_false]
    rw [read8_not_port _ _ hq1]
    dsimp only
    rw [read8_not_port _ _ hq2]
    dsimp only
    rfl

/-- Witness for C6: JMP ($02FF) lands at $1234, with the high byte taken
from $0200 rather than $0300. -/
theorem c6_jmp_indirect_page_wrap_witness :
    (opcodes.jmp_indirect CPURegisters.new c6_mem).1.pc = 0x1234 := by
  have h := (c6_jmp_indirect_page_wrap CPURegisters.new c6_mem (by decide) (by decide)).1
    0x02FF (by decide) (by decide) (by decide) (by decide)
  rw [h]
  decide


/-! ### C10 -/

theorem apply_stack_op_preserves (s : CPURegisters × RamController) (op : StackOp)
    (h1 : 0x0100 ≤ s.1.stack) (h2 : s.1.stack ≤ 0x01FF) (hx : s.1.x < 256) :
    (0x0100 ≤ (apply_stack_op s op).1.stack ∧
     (apply_stack_op s op).1.stack ≤ 0x01FF) ∧
    (apply_stack_op s op).1.x = s.1.x := by
  cases op with
  | pushv v =>
    have hr : (apply_stack_op s (StackOp.pushv v)).1 = s.1.decrement_stack := rfl
    rw [hr, decrement_stack_stack, decrement_stack_x]
    refine ⟨?_, rfl⟩
    split_ifs <;> omega
  | popv =>
    have hr : (apply_stack_op s StackOp.popv).1 = s.1.increment_stack := rfl
    rw [hr, increment_stack_stack, increment_stack_x]
    refine ⟨?_, rfl⟩
    split_ifs <;> omega
  | txs =>
    have hr : (apply_stack_op s StackOp.txs).1 = s.1.set_stack s.1.x := rfl
    have hstk : (s.1.set_stack s.1.x).stack = 0x0100 + s.1.x := by
      simp only [CPURegisters.set_stack]
      exact or_100_of_lt s.1.x hx
    rw [hr, hstk]
    exact ⟨⟨by omega, by omega⟩, rfl⟩

theorem apply_stack_ops_preserves (ops : List StackOp) :
    ∀ s : CPURegisters × RamController,
      0x0100 ≤ s.1.stack → s.1.stack ≤ 0x01FF → s.1.x < 256 →
      0x0100 ≤ (apply_stack_ops s ops).1.stack ∧
      (apply_stack_ops s ops).1.stack ≤ 0x01FF := by
  induction ops with
  | nil => intro s h1 h2 _; exact ⟨h1, h2⟩
  | cons op rest ih =>
    intro s h1 h2 hx
    have hstep := apply_stack_op_preserves s op h1 h2 hx
    have hops : apply_stack_ops s (op :: rest) = apply_stack_ops (apply_stack_op s op) rest := rfl
    rw [hops]
    exact ih (apply_stack_op s op) hstep.1.1 hstep.1.2 (hstep.2 ▸ hx)

/-- C10: the stack pointer stays inside the stack page: from any state
with SP in [0x0100, 0x01FF] and X a byte, any sequence of push, pop and
TXS operations keeps SP in [0x0100, 0x01FF]; incrementing past 0x01FF
wraps to 0x0100, decrementing at 0x0100 wraps to 0x01FF, and TXS forces
the 0x0100 base onto the written byte. -/
theorem c10_stack_pointer_invariant (regs : CPURegisters) (mem : RamController)
    (ops : List StackOp) (h1 : 0x0100 ≤ regs.stack) (h2 : regs.stack ≤ 0x01FF)
    (hx : regs.x < 256) :
    (0x0100 ≤ (apply_stack_ops (regs, mem) ops).1.stack ∧
      (apply_stack_ops (regs, mem) ops).1.stack ≤ 0x01FF) ∧
    (∀ r : CPURegisters, r.stack = 0x01FF → r.increment_stack.stack = 0x0100) ∧
    (∀ r : CPURegisters, r.stack = 0x0100 → r.decrement_stack.stack = 0x01FF) ∧
    (∀ (r : CPURegisters) (v : Nat), v < 256 →
      (r.set_stack v).stack = 0x0100 ||| v ∧
      0x0100 ≤ (r.set_stack v).stack ∧ (r.set_stack v).stack ≤ 0x01FF) := by
  refine ⟨apply_stack_ops_preserves ops (regs, mem) h1 h2 hx, ?_, ?_, ?_⟩
  · intro r h
    unfold CPURegisters.increment_stack
    simp [h]
  · intro r h
    unfold CPURegisters.decrement_stack
    simp [h]
  · intro r v hv
    unfold CPURegisters.set_stack
    have := or_100_of_lt v hv
    refine ⟨rfl, ?_, ?_⟩ <;> simp <;> omega

/-- Witness for C10: push, pop, push, TXS from the fresh CPU state. -/
theorem c10_stack_pointer_invariant_witness :
    0x0100 ≤ (apply_stack_ops
      (CPURegisters.new, RamController.new PPURegisters.new VRAMController.new)
      [StackOp.pushv 5, StackOp.popv, StackOp.pushv 9, StackOp.txs]).1.stack ∧
    (apply_stack_ops
      (CPURegisters.new, RamController.new PPURegisters.new VRAMController.new)
      [StackOp.pushv 5, StackOp.popv, StackOp.pushv 9, StackOp.txs]).1.stack ≤ 0x01FF :=
  (c10_stack_pointer_invariant CPURegisters.new
    (RamController.new PPURegisters.new VRAMController.new)
    [StackOp.pushv 5, StackOp.popv, StackOp.pushv 9, StackOp.txs]
    (by decide) (by decide) (by decide)).1


/-! ### C5: spend_cycles case analysis and phase arithmetic -/

/-- phase index in the 4-phase cycle. -/
def phase_idx : FetchState → Nat
  | FetchState.NameTable => 0
  | FetchState.AttributeTable => 1
  | FetchState.PatternTableTileLow => 2
  | FetchState.PatternTableTileHigh => 3

/-- Composable bookkeeping of one render step: scanline and idle flag
unchanged, remainders stay nonnegative and nonincreasing, and the dot
advances by exactly the cycles consumed. -/
def step_ok (p q : PPU) : Prop :=
  q.scanline = p.scanline ∧ q.idle_cycle = p.idle_cycle ∧
  (0 ≤ p.cycle_remainders → 0 ≤ q.cycle_remainders) ∧
  q.cycle_remainders ≤ p.cycle_remainders ∧
  q.scanline_cycle = p.scanline_cycle + (p.cycle_remainders - q.cycle_remainders)

theorem step_ok_refl (p : PPU) : step_ok p p :=
  ⟨rfl, rfl, fun h => h, le_refl _, by ring⟩

theorem step_ok_trans {p q r : PPU} (h1 : step_ok p q) (h2 : step_ok q r) :
    step_ok p r := by
  obtain ⟨a1, b1, c1, d1, e1⟩ := h1
  obtain ⟨a2, b2, c2, d2, e2⟩ := h2
  exact ⟨a2.trans a1, b2.trans b1, fun h => c2 (c1 h), d2.trans d1, by rw [e2, e1]; ring⟩

theorem spend_cases (p : PPU) (c : Int) :
    (p.cycle_remainders = 0 ∧ p.spend_cycles c = (false, p)) ∨
    (p.cycle_remainders ≠ 0 ∧ c - p.cycle_deduction ≤ p.cycle_remainders ∧
      p.spend_cycles c = (true,
        { p with cycle_remainders := p.cycle_remainders - (c - p.cycle_deduction),
                 scanline_cycle := p.scanline_cycle + (c - p.cycle_deduction),
                 frame_cycle := p.frame_cycle + (c - p.cycle_deduction),
                 cycle_deduction := 0 })) ∨
    (p.cycle_remainders ≠ 0 ∧ p.cycle_remainders < c - p.cycle_deduction ∧
      p.spend_cycles c = (false,
        { p with scanline_cycle := p.scanline_cycle + p.cycle_remainders,
                 frame_cycle := p.frame_cycle + p.cycle_remainders,
                 cycle_deduction := (c - p.cycle_deduction) - p.cycle_remainders,
                 cycle_remainders := 0 })) := by
  unfold PPU.spend_cycles
  by_cases h0 : p.cycle_remainders = 0
  · left
    refine ⟨h0, ?_⟩
    rw [if_pos (by simpa using h0)]
  · by_cases hge : p.cycle_remainders ≥ c - p.cycle_deduction
    · right; left
      refine ⟨h0, hge, ?_⟩
      rw [if_neg (by simpa using h0), if_pos hge]
    · right; right
      refine ⟨h0, by omega, ?_⟩
      rw [if_neg (by simpa using h0), if_neg hge]

theorem phase_idx_phase_at (sc : Int) :
    phase_idx (phase_at sc) = ((sc - 1).toNat / 2) % 4 := by
  unfold phase_at
  have h4 : ((sc - 1).toNat / 2) % 4 = 0 ∨ ((sc - 1).toNat / 2) % 4 = 1 ∨
      ((sc - 1).toNat / 2) % 4 = 2 ∨ ((sc - 1).toNat / 2) % 4 = 3 := by omega
  rcases h4 with h | h | h | h <;> rw [h] <;> rfl

theorem phase_at_add_two (sc : Int) (h1 : 1 ≤ sc) :
    phase_at (sc + 2) = next_phase (phase_at sc) := by
  unfold phase_at
  have hstep : ((sc + 2 - 1).toNat / 2) % 4 = (((sc - 1).toNat / 2) % 4 + 1) % 4 := by
    omega
  rw [hstep]
  have h4 : ((sc - 1).toNat / 2) % 4 = 0 ∨ ((sc - 1).toNat / 2) % 4 = 1 ∨
      ((sc - 1).toNat / 2) % 4 = 2 ∨ ((sc - 1).toNat / 2) % 4 = 3 := by omega
  rcases h4 with h | h | h | h <;> rw [h] <;> rfl

theorem phase_idx_next (w : FetchState) (hw : w ≠ FetchState.PatternTableTileHigh) :
    phase_idx (next_phase w) = phase_idx w + 1 := by
  cases w with
  | NameTable => rfl
  | AttributeTable => rfl
  | PatternTableTileLow => rfl
  | PatternTableTileHigh => exact absurd rfl hw

/-- Entry budget: from the alignment invariant, a non-idle state at dot
at most 336 has at least its pending tile's remaining phases of room
before dot 341. -/
theorem busy_bound (p : PPU) (hb : busy_core p) (hsc : p.scanline_cycle ≤ 336) :
    p.scanline_cycle + 2 * (4 - phase_idx p.fetch_state) ≤ 340 := by
  obtain ⟨h1, h2, hd⟩ := hb
  rcases hd with ⟨ho, hb339, hd0, hst⟩ | ⟨he, hd1, hst⟩ | ⟨h341, _, _⟩
  · rw [hst, phase_idx_phase_at]
    omega
  · rw [hst, phase_idx_phase_at]
    omega
  · omega


/-- The cycle index of a fetch phase is at most 3. -/
theorem phase_idx_le3 (w : FetchState) : phase_idx w ≤ 3 := by
  cases w <;> simp [phase_idx]

/-- One generic background-fetch phase (all phases of the three tile
ranges and the first dummy fetch, whose successor state is the cyclic
next phase): preserves the alignment invariant and the step
bookkeeping, keeps the tile budget, and consumes at least one cycle
when it is the pending phase and cycles remain. -/
theorem fetch_phase_step (p : PPU) (want : FetchState) (l : PPU → PPU)
    (hl : frame_preserving l) (hrem : 0 ≤ p.cycle_remainders) (hb : busy_core p)
    (hfire : p.fetch_state = want → 0 < p.cycle_remainders → p.scanline_cycle ≤ 338) :
    step_ok p (p.fetch_phase want (next_phase want) l) ∧
    busy_core (p.fetch_phase want (next_phase want) l) ∧
    ((0 < p.cycle_remainders → p.scanline_cycle + 2 * (4 - phase_idx p.fetch_state) ≤ 340) →
      want ≠ FetchState.PatternTableTileHigh →
      (0 < (p.fetch_phase want (next_phase want) l).cycle_remainders →
        (p.fetch_phase want (next_phase want) l).scanline_cycle +
          2 * (4 - phase_idx (p.fetch_phase want (next_phase want) l).fetch_state) ≤ 340)) ∧
    (p.fetch_state = want → 0 < p.cycle_remainders →
      (p.fetch_phase want (next_phase want) l).cycle_remainders < p.cycle_remainders) ∧
    (p.fetch_state ≠ want → p.fetch_phase want (next_phase want) l = p) := by
  by_cases hw : p.fetch_state = want
  · rcases spend_cases p 2 with ⟨h0, hsp⟩ | ⟨h0, hle, hsp⟩ | ⟨h0, hlt, hsp⟩
    · -- no cycles at all: the spend is a no-op and the state is unchanged
      have hq : p.fetch_phase want (next_phase want) l = p := by
        unfold PPU.fetch_phase
        rw [if_pos (by simpa using hw), hsp]
        rfl
      rw [hq]
      exact ⟨step_ok_refl p, hb, fun hbud _ => hbud, fun _ hpos => absurd h0 (by omega),
        fun hne => absurd hw hne⟩
    · -- full spend: the phase completes and hands over to the next phase
      obtain ⟨hsc1, hsc341, hd⟩ := hb
      have hpos : 0 < p.cycle_remainders := by omega
      have hle338 : p.scanline_cycle ≤ 338 := hfire hw hpos
      have hq : p.fetch_phase want (next_phase want) l =
          { l { p with cycle_remainders := p.cycle_remainders - (2 - p.cycle_deduction),
                       scanline_cycle := p.scanline_cycle + (2 - p.cycle_deduction),
                       frame_cycle := p.frame_cycle + (2 - p.cycle_deduction),
                       cycle_deduction := 0 } with fetch_state := next_phase want } := by
        unfold PPU.fetch_phase
        rw [if_pos (by simpa using hw), hsp]
        rfl
      obtain ⟨e1, e2, e3, e4, e5, e6, e7⟩ := hl
        { p with cycle_remainders := p.cycle_remainders - (2 - p.cycle_deduction),
                 scanline_cycle := p.scanline_cycle + (2 - p.cycle_deduction),
                 frame_cycle := p.frame_cycle + (2 - p.cycle_deduction),
                 cycle_deduction := 0 }
      have hpi : phase_idx want ≤ 3 := phase_idx_le3 want
      have hded : p.cycle_deduction = 0 ∨ p.cycle_deduction = 1 := by
        rcases hd with ⟨_, _, h, _⟩ | ⟨_, h, _⟩ | ⟨_, h, _⟩
        · exact Or.inl h
        · exact Or.inr h
        · exact Or.inl h
      rw [hq]
      refine ⟨⟨by simp only [e1], by simp only [e5], ?_, ?_, ?_⟩, ?_, ?_, ?_,
        fun hne => absurd hw hne⟩
      · simp only [e3]; intro _; omega
      · simp only [e3]; omega
      · simp only [e2, e3]; rcases hded with h | h <;> rw [h] <;> ring
      · -- the alignment invariant after a completed phase
        rcases hd with ⟨ho, hb339, hd0, hst⟩ | ⟨he, hd1, hst⟩ | ⟨h341, hd0, hst⟩
        · refine ⟨by simp only [e2]; omega, by simp only [e2]; omega,
            Or.inl ⟨by simp only [e2]; omega, by simp only [e2]; omega,
              by simp only [e4], ?_⟩⟩
          simp only [e2]
          rw [show p.scanline_cycle + (2 - p.cycle_deduction) = p.scanline_cycle + 2 from by
            rw [hd0]; ring]
          rw [phase_at_add_two p.scanline_cycle hsc1, ← hst, hw]
        · refine ⟨by simp only [e2]; omega, by simp only [e2]; omega,
            Or.inl ⟨by simp only [e2]; omega, by simp only [e2]; omega,
              by simp only [e4], ?_⟩⟩
          simp only [e2]
          rw [show p.scanline_cycle + (2 - p.cycle_deduction) = p.scanline_cycle - 1 + 2 from by
            rw [hd1]; ring]
          rw [phase_at_add_two (p.scanline_cycle - 1) (by omega), ← hst, hw]
        · exact absurd hle338 (by omega)
      · -- the tile budget after a completed non-final phase
        intro hbud hne _
        have hb340 := hbud hpos
        rw [hw] at hb340
        simp only [e2]
        rw [phase_idx_next want hne]
        rcases hded with h | h <;> rw [h] <;> omega
      · intro _ _
        simp only [e3]
        omega
    · -- partial spend: the remainders run out mid-phase
      obtain ⟨hsc1, hsc341, hd⟩ := hb
      have hpos : 0 < p.cycle_remainders := by omega
      have hle338 : p.scanline_cycle ≤ 338 := hfire hw hpos
      have hq : p.fetch_phase want (next_phase want) l =
          { p with scanline_cycle := p.scanline_cycle + p.cycle_remainders,
                   frame_cycle := p.frame_cycle + p.cycle_remainders,
                   cycle_deduction := (2 - p.cycle_deduction) - p.cycle_remainders,
                   cycle_remainders := 0 } := by
        unfold PPU.fetch_phase
        rw [if_pos (by simpa using hw), hsp]
        rfl
      rcases hd with ⟨ho, hb339, hd0, hst⟩ | ⟨he, hd1, hst⟩ | ⟨h341, hd0, hst⟩
      · -- only possible from an odd dot with exactly one remaining cycle
        have hrem1 : p.cycle_remainders = 1 := by omega
        rw [hq]
        refine ⟨⟨rfl, rfl, by intro _; dsimp only; omega, by dsimp only; omega, by dsimp only; omega⟩,
          ⟨by dsimp only; omega, by dsimp only; omega,
            Or.inr (Or.inl ⟨by dsimp only; omega, by dsimp only; omega, ?_⟩)⟩,
          ?_, ?_, fun hne => absurd hw hne⟩
        · show p.fetch_state = phase_at _
          dsimp only
          rw [hst, hrem1]
          congr 1
          ring
        · intro _ _ hq0
          dsimp only at hq0
          omega
        · intro _ _
          dsimp only
          omega
      · exact absurd hlt (by omega)
      · exact absurd hle338 (by omega)
  · have hq : p.fetch_phase want (next_phase want) l = p := by
      unfold PPU.fetch_phase
      rw [if_neg (by simpa using hw)]
    rw [hq]
    exact ⟨step_ok_refl p, hb, fun hbud _ => hbud, fun hweq => absurd hweq hw,
      fun _ => rfl⟩


/-- The final dummy fetch of a scanline (dots 337..340, second phase):
the source resets the state to NameTable for the next scanline.  Fired
only at dot 339 (or its half-paid 340), it completes the scanline at
dot 341 with the NameTable state. -/
theorem fetch_phase_step_end (p : PPU) (l : PPU → PPU) (hl : frame_preserving l)
    (hrem : 0 ≤ p.cycle_remainders) (hb : busy_core p)
    (hge : p.fetch_state = FetchState.AttributeTable → 0 < p.cycle_remainders →
      339 ≤ p.scanline_cycle) :
    step_ok p (p.fetch_phase FetchState.AttributeTable FetchState.NameTable l) ∧
    busy_core (p.fetch_phase FetchState.AttributeTable FetchState.NameTable l) ∧
    (p.fetch_state = FetchState.AttributeTable → 0 < p.cycle_remainders →
      (p.fetch_phase FetchState.AttributeTable FetchState.NameTable l).cycle_remainders
        < p.cycle_remainders) ∧
    (p.fetch_state ≠ FetchState.AttributeTable →
      p.fetch_phase FetchState.AttributeTable FetchState.NameTable l = p) := by
  by_cases hw : p.fetch_state = FetchState.AttributeTable
  · rcases spend_cases p 2 with ⟨h0, hsp⟩ | ⟨h0, hle, hsp⟩ | ⟨h0, hlt, hsp⟩
    · have hq : p.fetch_phase FetchState.AttributeTable FetchState.NameTable l = p := by
        unfold PPU.fetch_phase
        rw [if_pos (by simpa using hw), hsp]
        rfl
      rw [hq]
      exact ⟨step_ok_refl p, hb, fun _ hpos => absurd h0 (by omega),
        fun hne => absurd hw hne⟩
    · obtain ⟨hsc1, hsc341, hd⟩ := hb
      have hpos : 0 < p.cycle_remainders := by omega
      have h339 : 339 ≤ p.scanline_cycle := hge hw hpos
      have hq : p.fetch_phase FetchState.AttributeTable FetchState.NameTable l =
          { l { p with cycle_remainders := p.cycle_remainders - (2 - p.cycle_deduction),
                       scanline_cycle := p.scanline_cycle + (2 - p.cycle_deduction),
                       frame_cycle := p.frame_cycle + (2 - p.cycle_deduction),
                       cycle_deduction := 0 } with fetch_state := FetchState.NameTable } := by
        unfold PPU.fetch_phase
        rw [if_pos (by simpa using hw), hsp]
        rfl
      obtain ⟨e1, e2, e3, e4, e5, e6, e7⟩ := hl
        { p with cycle_remainders := p.cycle_remainders - (2 - p.cycle_deduction),
                 scanline_cycle := p.scanline_cycle + (2 - p.cycle_deduction),
                 frame_cycle := p.frame_cycle + (2 - p.cycle_deduction),
                 cycle_deduction := 0 }
      rcases hd with ⟨ho, hb339, hd0, hst⟩ | ⟨he, hd1, hst⟩ | ⟨h341, hd0, hst⟩
      · -- odd: the dot must be exactly 339, completing to 341
        have h339e : p.scanline_cycle = 339 := by omega
        rw [hq]
        refine ⟨⟨by simp only [e1], by simp only [e5], ?_, ?_, ?_⟩,
          ⟨by simp only [e2]; omega, by simp only [e2]; omega,
            Or.inr (Or.inr ⟨by simp only [e2]; omega, by simp only [e4], rfl⟩)⟩,
          ?_, fun hne => absurd hw hne⟩
        · simp only [e3]; intro _; omega
        · simp only [e3]; omega
        · simp only [e2, e3]; rw [hd0]; ring
        · intro _ _
          simp only [e3]
          omega
      · -- even: the dot must be exactly 340, completing to 341
        have h340 : p.scanline_cycle = 340 := by omega
        rw [hq]
        refine ⟨⟨by simp only [e1], by simp only [e5], ?_, ?_, ?_⟩,
          ⟨by simp only [e2]; omega, by simp only [e2]; omega,
            Or.inr (Or.inr ⟨by simp only [e2]; omega, by simp only [e4], rfl⟩)⟩,
          ?_, fun hne => absurd hw hne⟩
        · simp only [e3]; intro _; omega
        · simp only [e3]; omega
        · simp only [e2, e3]; rw [hd1]; ring
        · intro _ _
          simp only [e3]
          omega
      · rw [hst] at hw
        exact absurd hw (by intro h; cases h)
    · obtain ⟨hsc1, hsc341, hd⟩ := hb
      have hpos : 0 < p.cycle_remainders := by omega
      have h339 : 339 ≤ p.scanline_cycle := hge hw hpos
      have hq : p.fetch_phase FetchState.AttributeTable FetchState.NameTable l =
          { p with scanline_cycle := p.scanline_cycle + p.cycle_remainders,
                   frame_cycle := p.frame_cycle + p.cycle_remainders,
                   cycle_deduction := (2 - p.cycle_deduction) - p.cycle_remainders,
                   cycle_remainders := 0 } := by
        unfold PPU.fetch_phase
        rw [if_pos (by simpa using hw), hsp]
        rfl
      rcases hd with ⟨ho, hb339, hd0, hst⟩ | ⟨he, hd1, hst⟩ | ⟨h341, hd0, hst⟩
      · have hrem1 : p.cycle_remainders = 1 := by omega
        have h339e : p.scanline_cycle = 339 := by omega
        rw [hq]
        refine ⟨⟨rfl, rfl, by intro _; dsimp only; omega, by dsimp only; omega,
            by dsimp only; omega⟩,
          ⟨by dsimp only; omega, by dsimp only; omega,
            Or.inr (Or.inl ⟨by dsimp only; omega, by dsimp only; omega, ?_⟩)⟩,
          ?_, fun hne => absurd hw hne⟩
        · show p.fetch_state = phase_at _
          dsimp only
          rw [hst, hrem1]
          congr 1
          ring
        · intro _ _
          dsimp only
          omega
      · exact absurd hlt (by omega)
      · rw [hst] at hw
        exact absurd hw (by intro h; cases h)
  · have hq : p.fetch_phase FetchState.AttributeTable FetchState.NameTable l = p := by
      unfold PPU.fetch_phase
      rw [if_neg (by simpa using hw)]
    rw [hq]
    exact ⟨step_ok_refl p, hb, fun hweq => absurd hweq hw, fun _ => rfl⟩


/-- A full 4-phase tile chain (the body of the three tile-fetch dot
ranges): from an aligned non-idle state at dot at most 336 it preserves
the alignment invariant and the bookkeeping, and consumes at least one
cycle when any remain. -/
theorem chain4_spec (p : PPU) (l1 l2 l3 l4 : PPU → PPU)
    (hl1 : frame_preserving l1) (hl2 : frame_preserving l2)
    (hl3 : frame_preserving l3) (hl4 : frame_preserving l4)
    (hrem : 0 ≤ p.cycle_remainders) (hb : busy_core p)
    (hsc : p.scanline_cycle ≤ 336) :
    step_ok p ((((p.fetch_phase FetchState.NameTable FetchState.AttributeTable l1).fetch_phase
        FetchState.AttributeTable FetchState.PatternTableTileLow l2).fetch_phase
        FetchState.PatternTableTileLow FetchState.PatternTableTileHigh l3).fetch_phase
        FetchState.PatternTableTileHigh FetchState.NameTable l4) ∧
    busy_core ((((p.fetch_phase FetchState.NameTable FetchState.AttributeTable l1).fetch_phase
        FetchState.AttributeTable FetchState.PatternTableTileLow l2).fetch_phase
        FetchState.PatternTableTileLow FetchState.PatternTableTileHigh l3).fetch_phase
        FetchState.PatternTableTileHigh FetchState.NameTable l4) ∧
    (0 < p.cycle_remainders →
      ((((p.fetch_phase FetchState.NameTable FetchState.AttributeTable l1).fetch_phase
        FetchState.AttributeTable FetchState.PatternTableTileLow l2).fetch_phase
        FetchState.PatternTableTileLow FetchState.PatternTableTileHigh l3).fetch_phase
        FetchState.PatternTableTileHigh FetchState.NameTable l4).cycle_remainders
        < p.cycle_remainders) := by
  have hbud0 : 0 < p.cycle_remainders →
      p.scanline_cycle + 2 * (4 - phase_idx p.fetch_state) ≤ 340 :=
    fun _ => busy_bound p hb hsc
  have hfire1 : p.fetch_state = FetchState.NameTable → 0 < p.cycle_remainders →
      p.scanline_cycle ≤ 338 := by
    intro hst hpos
    have := hbud0 hpos
    rw [hst] at this
    simp only [phase_idx] at this
    omega
  have S1 := fetch_phase_step p FetchState.NameTable l1 hl1 hrem hb hfire1
  simp only [next_phase] at S1
  obtain ⟨sok1, hb1, hbd1, hpr1, hno1⟩ := S1
  set q1 := p.fetch_phase FetchState.NameTable FetchState.AttributeTable l1 with hq1
  have hrem1 : 0 ≤ q1.cycle_remainders := sok1.2.2.1 hrem
  have hbud1 : 0 < q1.cycle_remainders →
      q1.scanline_cycle + 2 * (4 - phase_idx q1.fetch_state) ≤ 340 :=
    hbd1 hbud0 (by intro h; cases h)
  have hfire2 : q1.fetch_state = FetchState.AttributeTable → 0 < q1.cycle_remainders →
      q1.scanline_cycle ≤ 338 := by
    intro hst hpos
    have := hbud1 hpos
    rw [hst] at this
    simp only [phase_idx] at this
    omega
  have S2 := fetch_phase_step q1 FetchState.AttributeTable l2 hl2 hrem1 hb1 hfire2
  simp only [next_phase] at S2
  obtain ⟨sok2, hb2, hbd2, hpr2, hno2⟩ := S2
  set q2 := q1.fetch_phase FetchState.AttributeTable FetchState.PatternTableTileLow l2 with hq2
  have hrem2 : 0 ≤ q2.cycle_remainders := sok2.2.2.1 hrem1
  have hbud2 : 0 < q2.cycle_remainders →
      q2.scanline_cycle + 2 * (4 - phase_idx q2.fetch_state) ≤ 340 :=
    hbd2 hbud1 (by intro h; cases h)
  have hfire3 : q2.fetch_state = FetchState.PatternTableTileLow → 0 < q2.cycle_remainders →
      q2.scanline_cycle ≤ 338 := by
    intro hst hpos
    have := hbud2 hpos
    rw [hst] at this
    simp only [phase_idx] at this
    omega
  have S3 := fetch_phase_step q2 FetchState.PatternTableTileLow l3 hl3 hrem2 hb2 hfire3
  simp only [next_phase] at S3
  obtain ⟨sok3, hb3, hbd3, hpr3, hno3⟩ := S3
  set q3 := q2.fetch_phase FetchState.PatternTableTileLow FetchState.PatternTableTileHigh l3 with hq3
  have hrem3 : 0 ≤ q3.cycle_remainders := sok3.2.2.1 hrem2
  have hbud3 : 0 < q3.cycle_remainders →
      q3.scanline_cycle + 2 * (4 - phase_idx q3.fetch_state) ≤ 340 :=
    hbd3 hbud2 (by intro h; cases h)
  have hfire4 : q3.fetch_state = FetchState.PatternTableTileHigh → 0 < q3.cycle_remainders →
      q3.scanline_cycle ≤ 338 := by
    intro hst hpos
    have := hbud3 hpos
    rw [hst] at this
    simp only [phase_idx] at this
    omega
  have S4 := fetch_phase_step q3 FetchState.PatternTableTileHigh l4 hl4 hrem3 hb3 hfire4
  simp only [next_phase] at S4
  obtain ⟨sok4, hb4, _, hpr4, hno4⟩ := S4
  set q4 := q3.fetch_phase FetchState.PatternTableTileHigh FetchState.NameTable l4 with hq4
  refine ⟨step_ok_trans (step_ok_trans (step_ok_trans sok1 sok2) sok3) sok4, hb4, ?_⟩
  intro hpos
  rcases hcase : p.fetch_state with _ | _ | _ | _
  · -- pending NameTable: the first phase fires
    have h1' := hpr1 hcase hpos
    calc q4.cycle_remainders ≤ q3.cycle_remainders := sok4.2.2.2.1
      _ ≤ q2.cycle_remainders := sok3.2.2.2.1
      _ ≤ q1.cycle_remainders := sok2.2.2.2.1
      _ < p.cycle_remainders := h1'
  · -- pending AttributeTable: the first phase is a no-op, the second fires
    have hn : q1 = p := hno1 (by rw [hcase]; intro h; cases h)
    have h2' := hpr2 (by rw [hn, hcase]) (by rw [hn]; exact hpos)
    rw [hn] at h2'
    calc q4.cycle_remainders ≤ q3.cycle_remainders := sok4.2.2.2.1
      _ ≤ q2.cycle_remainders := sok3.2.2.2.1
      _ < p.cycle_remainders := h2'
  · -- pending PatternTableTileLow: the first two phases are no-ops
    have hn1 : q1 = p := hno1 (by rw [hcase]; intro h; cases h)
    have hn2 : q2 = q1 := hno2 (by rw [hn1, hcase]; intro h; cases h)
    have h3' := hpr3 (by rw [hn2, hn1, hcase]) (by rw [hn2, hn1]; exact hpos)
    rw [hn2, hn1] at h3'
    calc q4.cycle_remainders ≤ q3.cycle_remainders := sok4.2.2.2.1
      _ < p.cycle_remainders := h3'
  · -- pending PatternTableTileHigh: the first three phases are no-ops
    have hn1 : q1 = p := hno1 (by rw [hcase]; intro h; cases h)
    have hn2 : q2 = q1 := hno2 (by rw [hn1, hcase]; intro h; cases h)
    have hn3 : q3 = q2 := hno3 (by rw [hn2, hn1, hcase]; intro h; cases h)
    have h4' := hpr4 (by rw [hn3, hn2, hn1, hcase]) (by rw [hn3, hn2, hn1]; exact hpos)
    rw [hn3, hn2, hn1] at h4'
    exact h4'


/-- The 2-phase dummy-fetch chain of dots 337..340 (the last block of
render_visible_scanlines): preserves the alignment invariant, the
bookkeeping, and consumes at least one cycle when any remain. -/
theorem chain2_spec (p : PPU) (l1 l2 : PPU → PPU)
    (hl1 : frame_preserving l1) (hl2 : frame_preserving l2)
    (hrem : 0 ≤ p.cycle_remainders) (hb : busy_core p)
    (hlo : 337 ≤ p.scanline_cycle) (hhi : p.scanline_cycle ≤ 340) :
    step_ok p ((p.fetch_phase FetchState.NameTable FetchState.AttributeTable l1).fetch_phase
        FetchState.AttributeTable FetchState.NameTable l2) ∧
    busy_core ((p.fetch_phase FetchState.NameTable FetchState.AttributeTable l1).fetch_phase
        FetchState.AttributeTable FetchState.NameTable l2) ∧
    (0 < p.cycle_remainders →
      ((p.fetch_phase FetchState.NameTable FetchState.AttributeTable l1).fetch_phase
        FetchState.AttributeTable FetchState.NameTable l2).cycle_remainders
        < p.cycle_remainders) := by
  have hcls : (p.fetch_state = FetchState.NameTable ∧ p.scanline_cycle ≤ 338) ∨
      (p.fetch_state = FetchState.AttributeTable ∧ 339 ≤ p.scanline_cycle) := by
    obtain ⟨hs1, hs341, hd⟩ := hb
    rcases hd with ⟨ho, hb339, hd0, hst⟩ | ⟨he, hd1, hst⟩ | ⟨h341, _, _⟩
    · have hv : p.scanline_cycle = 337 ∨ p.scanline_cycle = 339 := by omega
      rcases hv with h | h
      · exact Or.inl ⟨by rw [hst, h]; decide, by omega⟩
      · exact Or.inr ⟨by rw [hst, h]; decide, by omega⟩
    · have hv : p.scanline_cycle = 338 ∨ p.scanline_cycle = 340 := by omega
      rcases hv with h | h
      · exact Or.inl ⟨by rw [hst, h]; decide, by omega⟩
      · exact Or.inr ⟨by rw [hst, h]; decide, by omega⟩
    · omega
  have hfire1 : p.fetch_state = FetchState.NameTable → 0 < p.cycle_remainders →
      p.scanline_cycle ≤ 338 := by
    intro hst _
    rcases hcls with ⟨_, h⟩ | ⟨hat, _⟩
    · exact h
    · rw [hst] at hat
      cases hat
  have S1 := fetch_phase_step p FetchState.NameTable l1 hl1 hrem hb hfire1
  simp only [next_phase] at S1
  obtain ⟨sok1, hb1, _, hpr1, hno1⟩ := S1
  set q1 := p.fetch_phase FetchState.NameTable FetchState.AttributeTable l1 with hq1
  have hrem1 : 0 ≤ q1.cycle_remainders := sok1.2.2.1 hrem
  have hsc1 : 337 ≤ q1.scanline_cycle := by
    have h1 := sok1.2.2.2.1
    have h2 := sok1.2.2.2.2
    omega
  have hge2 : q1.fetch_state = FetchState.AttributeTable → 0 < q1.cycle_remainders →
      339 ≤ q1.scanline_cycle := by
    intro hst _
    obtain ⟨a1, a341, ad⟩ := hb1
    rcases ad with ⟨ho, hb339, hd0, hstq⟩ | ⟨he, hd1, hstq⟩ | ⟨h341, _, _⟩
    · have hidx : phase_idx (phase_at q1.scanline_cycle) = 1 := by
        rw [← hstq, hst]
        rfl
      rw [phase_idx_phase_at] at hidx
      omega
    · have hidx : phase_idx (phase_at (q1.scanline_cycle - 1)) = 1 := by
        rw [← hstq, hst]
        rfl
      rw [phase_idx_phase_at] at hidx
      omega
    · omega
  have S2 := fetch_phase_step_end q1 l2 hl2 hrem1 hb1 hge2
  obtain ⟨sok2, hb2, hpr2, hno2⟩ := S2
  refine ⟨step_ok_trans sok1 sok2, hb2, ?_⟩
  intro hpos
  rcases hcls with ⟨hnt, _⟩ | ⟨hat, _⟩
  · have h1' := hpr1 hnt hpos
    calc (q1.fetch_phase FetchState.AttributeTable FetchState.NameTable l2).cycle_remainders
        ≤ q1.cycle_remainders := sok2.2.2.2.1
      _ < p.cycle_remainders := h1'
  · have hn1 : q1 = p := hno1 (by rw [hat]; intro h; cases h)
    have h2' := hpr2 (by rw [hn1, hat]) (by rw [hn1]; exact hpos)
    rw [hn1]
    rw [hn1] at h2'
    exact h2'

/-- render_visible_scanlines is the composition of its five stages. -/
theorem render_visible_eq (p : PPU) :
    p.render_visible_scanlines =
      stage_block4 (stage_block3 (stage_block2 (stage_block1 (stage_idle p)))) := rfl

/-- The inter-stage invariant implies the render-scanline invariant. -/
theorem mid_inv_render (p : PPU) (hm : mid_inv p) : render_core_inv p := by
  obtain ⟨hrem, hc⟩ := hm
  rcases hc with ⟨hid, hsc, hd, hst, _⟩ | ⟨hid, hb⟩
  · refine ⟨hrem, fun _ => ⟨hsc, hd, hst⟩, fun h => ?_⟩
    rw [hid] at h
    cases h
  · refine ⟨hrem, fun h => ?_, fun _ => hb⟩
    rw [hid] at h
    cases h

/-- With no cycles left a fetch phase is the identity. -/
theorem fetch_phase_zero (p : PPU) (w n : FetchState) (l : PPU → PPU)
    (h : p.cycle_remainders = 0) : p.fetch_phase w n l = p := by
  unfold PPU.fetch_phase
  rcases spend_cases p 2 with ⟨_, hsp⟩ | ⟨h0, _, _⟩ | ⟨h0, _, _⟩
  · by_cases hw : p.fetch_state == w
    · rw [if_pos hw, hsp]
      rfl
    · rw [if_neg hw]
  · exact absurd h h0
  · exact absurd h h0

/-- With no cycles left the whole render pass is the identity. -/
theorem render_zero (p : PPU) (h : p.cycle_remainders = 0) :
    p.render_visible_scanlines = p := by
  rw [render_visible_eq]
  have hi : stage_idle p = p := by
    unfold stage_idle
    rcases spend_cases p 1 with ⟨_, hsp⟩ | ⟨h0, _, _⟩ | ⟨h0, _, _⟩
    · by_cases hid : p.idle_cycle
      · rw [if_pos hid, hsp]
        rfl
      · rw [if_neg hid]
    · exact absurd h h0
    · exact absurd h h0
  have h1 : stage_block1 p = p := by
    simp only [stage_block1]
    rw [fetch_phase_zero p _ _ _ h, fetch_phase_zero p _ _ _ h,
      fetch_phase_zero p _ _ _ h, fetch_phase_zero p _ _ _ h, ite_self]
  have h2 : stage_block2 p = p := by
    simp only [stage_block2]
    rw [fetch_phase_zero p _ _ _ h, fetch_phase_zero p _ _ _ h,
      fetch_phase_zero p _ _ _ h, fetch_phase_zero p _ _ _ h, ite_self]
  have h3 : stage_block3 p = p := by
    simp only [stage_block3]
    rw [fetch_phase_zero p _ _ _ h, fetch_phase_zero p _ _ _ h,
      fetch_phase_zero p _ _ _ h, fetch_phase_zero p _ _ _ h, ite_self]
  have h4 : stage_block4 p = p := by
    simp only [stage_block4]
    rw [fetch_phase_zero p _ _ _ h, fetch_phase_zero p _ _ _ h, ite_self]
  rw [hi, h1, h2, h3, h4]

/-- The idle-dot stage: bookkeeping, inter-stage invariant, progress
when it is the pending stage, identity otherwise. -/
theorem stage_idle_spec (q : PPU) (hrc : render_core_inv q) :
    (stage_idle q).scanline = q.scanline ∧
    0 ≤ (stage_idle q).cycle_remainders ∧
    (stage_idle q).cycle_remainders ≤ q.cycle_remainders ∧
    (stage_idle q).scanline_cycle =
      q.scanline_cycle + (q.cycle_remainders - (stage_idle q).cycle_remainders) ∧
    mid_inv (stage_idle q) ∧
    (q.idle_cycle = true → 0 < q.cycle_remainders →
      (stage_idle q).cycle_remainders < q.cycle_remainders) ∧
    (q.idle_cycle = false → stage_idle q = q) := by
  obtain ⟨hrem, hidl, hbusy⟩ := hrc
  by_cases hid : q.idle_cycle
  · obtain ⟨hsc0, hd0, hst⟩ := hidl hid
    rcases spend_cases q 1 with ⟨h0, hsp⟩ | ⟨h0, hle, hsp⟩ | ⟨h0, hlt, hsp⟩
    · have heq : stage_idle q = q := by
        unfold stage_idle
        rw [if_pos hid, hsp]
        rfl
      rw [heq]
      refine ⟨rfl, hrem, le_refl _, by ring, ⟨hrem, Or.inl ⟨hid, hsc0, hd0, hst, h0⟩⟩,
        fun _ hpos => absurd h0 (by omega), fun hne => absurd hne (by rw [hid]; decide)⟩
    · have heq : stage_idle q =
          { q with cycle_remainders := q.cycle_remainders - (1 - q.cycle_deduction),
                   scanline_cycle := q.scanline_cycle + (1 - q.cycle_deduction),
                   frame_cycle := q.frame_cycle + (1 - q.cycle_deduction),
                   cycle_deduction := 0, idle_cycle := false } := by
        unfold stage_idle
        rw [if_pos hid, hsp]
        rfl
      rw [heq]
      have hsc1 : q.scanline_cycle + (1 - q.cycle_deduction) = 1 := by omega
      refine ⟨rfl, by dsimp only; omega, by dsimp only; omega, by dsimp only; omega,
        ⟨by dsimp only; omega, Or.inr ⟨rfl, ?_⟩⟩, fun _ _ => by dsimp only; omega,
        fun hne => absurd hne (by rw [hid]; decide)⟩
      refine ⟨by dsimp only; omega, by dsimp only; omega, Or.inl ⟨?_, ?_, rfl, ?_⟩⟩
      · dsimp only
        omega
      · dsimp only
        omega
      · show q.fetch_state = phase_at _
        dsimp only
        rw [hst, hsc1]
        rfl
    · exact absurd hlt (by omega)
  · have hne : q.idle_cycle = false := by
      cases hqe : q.idle_cycle
      · rfl
      · exact absurd hqe hid
    have heq : stage_idle q = q := by
      unfold stage_idle
      rw [if_neg hid]
    rw [heq]
    exact ⟨rfl, hrem, le_refl _, by ring, ⟨hrem, Or.inr ⟨hne, hbusy hne⟩⟩,
      fun ht => absurd ht (by rw [hne]; decide), fun _ => rfl⟩

theorem fp_id : frame_preserving (fun r : PPU => r) :=
  fun _ => ⟨rfl, rfl, rfl, rfl, rfl, rfl, rfl⟩

theorem fp_nt : frame_preserving (fun r : PPU => { r with name_table := 0 }) :=
  fun _ => ⟨rfl, rfl, rfl, rfl, rfl, rfl, rfl⟩

theorem fp_at : frame_preserving (fun r : PPU => { r with attribute_table := 0 }) :=
  fun _ => ⟨rfl, rfl, rfl, rfl, rfl, rfl, rfl⟩

theorem fp_pl : frame_preserving (fun r : PPU => { r with pattern_table_tile_low := 0 }) :=
  fun _ => ⟨rfl, rfl, rfl, rfl, rfl, rfl, rfl⟩

theorem fp_ph : frame_preserving (fun r : PPU => { r with pattern_table_tile_high := 0 }) :=
  fun _ => ⟨rfl, rfl, rfl, rfl, rfl, rfl, rfl⟩

/-- A guarded 4-phase tile chain (the common shape of the first three
dot-range blocks of render_visible_scanlines): from the inter-stage
invariant, if the guard implies the dot lies in a tile range, the block
preserves the invariant and bookkeeping, makes progress when the guard
holds, and is the identity when it does not. -/
theorem stage_chain4_cond (q : PPU) (c : Bool) (l1 l2 l3 l4 : PPU → PPU)
    (hl1 : frame_preserving l1) (hl2 : frame_preserving l2)
    (hl3 : frame_preserving l3) (hl4 : frame_preserving l4)
    (hm : mid_inv q)
    (hcnd : c = true → 1 ≤ q.scanline_cycle ∧ q.scanline_cycle ≤ 336) :
    step_ok q (if c then
        (((q.fetch_phase FetchState.NameTable FetchState.AttributeTable l1).fetch_phase
          FetchState.AttributeTable FetchState.PatternTableTileLow l2).fetch_phase
          FetchState.PatternTableTileLow FetchState.PatternTableTileHigh l3).fetch_phase
          FetchState.PatternTableTileHigh FetchState.NameTable l4
      else q) ∧
    mid_inv (if c then
        (((q.fetch_phase FetchState.NameTable FetchState.AttributeTable l1).fetch_phase
          FetchState.AttributeTable FetchState.PatternTableTileLow l2).fetch_phase
          FetchState.PatternTableTileLow FetchState.PatternTableTileHigh l3).fetch_phase
          FetchState.PatternTableTileHigh FetchState.NameTable l4
      else q) ∧
    (c = true → 0 < q.cycle_remainders →
      (if c then
        (((q.fetch_phase FetchState.NameTable FetchState.AttributeTable l1).fetch_phase
          FetchState.AttributeTable FetchState.PatternTableTileLow l2).fetch_phase
          FetchState.PatternTableTileLow FetchState.PatternTableTileHigh l3).fetch_phase
          FetchState.PatternTableTileHigh FetchState.NameTable l4
      else q).cycle_remainders < q.cycle_remainders) ∧
    (c = false →
      (if c then
        (((q.fetch_phase FetchState.NameTable FetchState.AttributeTable l1).fetch_phase
          FetchState.AttributeTable FetchState.PatternTableTileLow l2).fetch_phase
          FetchState.PatternTableTileLow FetchState.PatternTableTileHigh l3).fetch_phase
          FetchState.PatternTableTileHigh FetchState.NameTable l4
      else q) = q) := by
  by_cases hc : c = true
  · rw [if_pos hc]
    obtain ⟨h1, h336⟩ := hcnd hc
    obtain ⟨hrem, hmc⟩ := hm
    rcases hmc with ⟨_, hsc0, _⟩ | ⟨hid, hb⟩
    · exact absurd hsc0 (by omega)
    · have C := chain4_spec q l1 l2 l3 l4 hl1 hl2 hl3 hl4 hrem hb h336
      refine ⟨C.1, ⟨C.1.2.2.1 hrem, Or.inr ⟨?_, C.2.1⟩⟩, fun _ hp => C.2.2 hp,
        fun hf => absurd hc (by rw [hf]; decide)⟩
      rw [C.1.2.1, hid]
  · have heq : (if c then
        (((q.fetch_phase FetchState.NameTable FetchState.AttributeTable l1).fetch_phase
          FetchState.AttributeTable FetchState.PatternTableTileLow l2).fetch_phase
          FetchState.PatternTableTileLow FetchState.PatternTableTileHigh l3).fetch_phase
          FetchState.PatternTableTileHigh FetchState.NameTable l4
      else q) = q := by rw [if_neg hc]
    rw [heq]
    exact ⟨step_ok_refl q, hm, fun ht _ => absurd ht hc, fun _ => rfl⟩

/-- The dot 1..256 block of render_visible_scanlines. -/
theorem stage_block1_spec (q : PPU) (hm : mid_inv q) :
    step_ok q (stage_block1 q) ∧ mid_inv (stage_block1 q) ∧
    (0 < q.scanline_cycle → q.scanline_cycle < 257 → 0 < q.cycle_remainders →
      (stage_block1 q).cycle_remainders < q.cycle_remainders) ∧
    ((0 < q.scanline_cycle ∧ q.scanline_cycle < 257 → False) → stage_block1 q = q) := by
  have hcnd : (q.scanline_cycle > 0 && q.scanline_cycle < 257) = true →
      1 ≤ q.scanline_cycle ∧ q.scanline_cycle ≤ 336 := by
    intro hc
    simp only [Bool.and_eq_true, decide_eq_true_eq] at hc
    omega
  have C := stage_chain4_cond q (q.scanline_cycle > 0 && q.scanline_cycle < 257)
    (fun r => { r with name_table := 0 }) (fun r => { r with attribute_table := 0 })
    (fun r => { r with pattern_table_tile_low := 0 })
    (fun r => { r with pattern_table_tile_high := 0 }) fp_nt fp_at fp_pl fp_ph hm hcnd
  have heq : stage_block1 q = (if (q.scanline_cycle > 0 && q.scanline_cycle < 257) then
      (((q.fetch_phase FetchState.NameTable FetchState.AttributeTable
          (fun r => { r with name_table := 0 })).fetch_phase
        FetchState.AttributeTable FetchState.PatternTableTileLow
          (fun r => { r with attribute_table := 0 })).fetch_phase
        FetchState.PatternTableTileLow FetchState.PatternTableTileHigh
          (fun r => { r with pattern_table_tile_low := 0 })).fetch_phase
        FetchState.PatternTableTileHigh FetchState.NameTable
          (fun r => { r with pattern_table_tile_high := 0 })
    else q) := rfl
  rw [heq]
  refine ⟨C.1, C.2.1, fun h1 h2 hp => C.2.2.1 ?_ hp, fun hn => C.2.2.2 ?_⟩
  · simp only [Bool.and_eq_true, decide_eq_true_eq]
    exact ⟨h1, h2⟩
  · rcases Bool.eq_false_or_eq_true (decide (q.scanline_cycle > 0) &&
        decide (q.scanline_cycle < 257)) with ht | hf
    · exfalso
      simp only [Bool.and_eq_true, decide_eq_true_eq] at ht
      exact hn (by omega)
    · exact hf

/-- The dot 257..320 block of render_visible_scanlines. -/
theorem stage_block2_spec (q : PPU) (hm : mid_inv q) :
    step_ok q (stage_block2 q) ∧ mid_inv (stage_block2 q) ∧
    (256 < q.scanline_cycle → q.scanline_cycle < 321 → 0 < q.cycle_remainders →
      (stage_block2 q).cycle_remainders < q.cycle_remainders) ∧
    ((256 < q.scanline_cycle ∧ q.scanline_cycle < 321 → False) → stage_block2 q = q) := by
  have hcnd : (q.scanline_cycle > 256 && q.scanline_cycle < 321) = true →
      1 ≤ q.scanline_cycle ∧ q.scanline_cycle ≤ 336 := by
    intro hc
    simp only [Bool.and_eq_true, decide_eq_true_eq] at hc
    omega
  have C := stage_chain4_cond q (q.scanline_cycle > 256 && q.scanline_cycle < 321)
    (fun r => r) (fun r => r)
    (fun r => { r with pattern_table_tile_low := 0 })
    (fun r => { r with pattern_table_tile_high := 0 }) fp_id fp_id fp_pl fp_ph hm hcnd
  have heq : stage_block2 q = (if (q.scanline_cycle > 256 && q.scanline_cycle < 321) then
      (((q.fetch_phase FetchState.NameTable FetchState.AttributeTable
          (fun r => r)).fetch_phase
        FetchState.AttributeTable FetchState.PatternTableTileLow
          (fun r => r)).fetch_phase
        FetchState.PatternTableTileLow FetchState.PatternTableTileHigh
          (fun r => { r with pattern_table_tile_low := 0 })).fetch_phase
        FetchState.PatternTableTileHigh FetchState.NameTable
          (fun r => { r with pattern_table_tile_high := 0 })
    else q) := rfl
  rw [heq]
  refine ⟨C.1, C.2.1, fun h1 h2 hp => C.2.2.1 ?_ hp, fun hn => C.2.2.2 ?_⟩
  · simp only [Bool.and_eq_true, decide_eq_true_eq]
    exact ⟨h1, h2⟩
  · rcases Bool.eq_false_or_eq_true (decide (q.scanline_cycle > 256) &&
        decide (q.scanline_cycle < 321)) with ht | hf
    · exfalso
      simp only [Bool.and_eq_true, decide_eq_true_eq] at ht
      exact hn (by omega)
    · exact hf

/-- The dot 321..336 block of render_visible_scanlines. -/
theorem stage_block3_spec (q : PPU) (hm : mid_inv q) :
    step_ok q (stage_block3 q) ∧ mid_inv (stage_block3 q) ∧
    (320 < q.scanline_cycle → q.scanline_cycle < 337 → 0 < q.cycle_remainders →
      (stage_block3 q).cycle_remainders < q.cycle_remainders) ∧
    ((320 < q.scanline_cycle ∧ q.scanline_cycle < 337 → False) → stage_block3 q = q) := by
  have hcnd : (q.scanline_cycle > 320 && q.scanline_cycle < 337) = true →
      1 ≤ q.scanline_cycle ∧ q.scanline_cycle ≤ 336 := by
    intro hc
    simp only [Bool.and_eq_true, decide_eq_true_eq] at hc
    omega
  have C := stage_chain4_cond q (q.scanline_cycle > 320 && q.scanline_cycle < 337)
    (fun r => { r with name_table := 0 }) (fun r => { r with attribute_table := 0 })
    (fun r => { r with pattern_table_tile_low := 0 })
    (fun r => { r with pattern_table_tile_high := 0 }) fp_nt fp_at fp_pl fp_ph hm hcnd
  have heq : stage_block3 q = (if (q.scanline_cycle > 320 && q.scanline_cycle < 337) then
      (((q.fetch_phase FetchState.NameTable FetchState.AttributeTable
          (fun r => { r with name_table := 0 })).fetch_phase
        FetchState.AttributeTable FetchState.PatternTableTileLow
          (fun r => { r with attribute_table := 0 })).fetch_phase
        FetchState.PatternTableTileLow FetchState.PatternTableTileHigh
          (fun r => { r with pattern_table_tile_low := 0 })).fetch_phase
        FetchState.PatternTableTileHigh FetchState.NameTable
          (fun r => { r with pattern_table_tile_high := 0 })
    else q) := rfl
  rw [heq]
  refine ⟨C.1, C.2.1, fun h1 h2 hp => C.2.2.1 ?_ hp, fun hn => C.2.2.2 ?_⟩
  · simp only [Bool.and_eq_true, decide_eq_true_eq]
    exact ⟨h1, h2⟩
  · rcases Bool.eq_false_or_eq_true (decide (q.scanline_cycle > 320) &&
        decide (q.scanline_cycle < 337)) with ht | hf
    · exfalso
      simp only [Bool.and_eq_true, decide_eq_true_eq] at ht
      exact hn (by omega)
    · exact hf

/-- The dot 337..340 block of render_visible_scanlines. -/
theorem stage_block4_spec (q : PPU) (hm : mid_inv q) :
    step_ok q (stage_block4 q) ∧ mid_inv (stage_block4 q) ∧
    (336 < q.scanline_cycle → q.scanline_cycle < 341 → 0 < q.cycle_remainders →
      (stage_block4 q).cycle_remainders < q.cycle_remainders) ∧
    ((336 < q.scanline_cycle ∧ q.scanline_cycle < 341 → False) → stage_block4 q = q) := by
  have heq : stage_block4 q = (if (q.scanline_cycle > 336 && q.scanline_cycle < 341) then
      (q.fetch_phase FetchState.NameTable FetchState.AttributeTable
        (fun r => r)).fetch_phase FetchState.AttributeTable FetchState.NameTable
        (fun r => r)
    else q) := rfl
  rw [heq]
  by_cases hc : (q.scanline_cycle > 336 && q.scanline_cycle < 341) = true
  · rw [if_pos hc]
    simp only [Bool.and_eq_true, decide_eq_true_eq] at hc
    obtain ⟨hrem, hmc⟩ := hm
    rcases hmc with ⟨_, hsc0, _⟩ | ⟨hid, hb⟩
    · exact absurd hsc0 (by omega)
    · have C := chain2_spec q (fun r => r) (fun r => r) fp_id fp_id hrem hb
        (by omega) (by omega)
      refine ⟨C.1, ⟨C.1.2.2.1 hrem, Or.inr ⟨?_, C.2.1⟩⟩, fun _ _ hp => C.2.2 hp,
        fun hn => absurd ⟨hc.1, hc.2⟩ (fun hh => hn hh)⟩
      rw [C.1.2.1, hid]
  · have heq2 : (if (q.scanline_cycle > 336 && q.scanline_cycle < 341) then
      (q.fetch_phase FetchState.NameTable FetchState.AttributeTable
        (fun r => r)).fetch_phase FetchState.AttributeTable FetchState.NameTable
        (fun r => r)
    else q) = q := by rw [if_neg hc]
    rw [heq2]
    refine ⟨step_ok_refl q, hm, fun h1 h2 _ => ?_, fun _ => rfl⟩
    exact absurd (by simp only [Bool.and_eq_true, decide_eq_true_eq]; exact ⟨h1, h2⟩) hc

/-- One full render_visible_scanlines pass from the render-scanline
invariant: scanline unchanged, remainders consumed are exactly the dots
advanced, the inter-stage invariant holds at the end, and at least one
cycle is consumed when any remain. -/
theorem render_spec (p : PPU) (hrc : render_core_inv p) (hsc340 : p.scanline_cycle ≤ 340) :
    p.render_visible_scanlines.scanline = p.scanline ∧
    0 ≤ p.render_visible_scanlines.cycle_remainders ∧
    p.render_visible_scanlines.cycle_remainders ≤ p.cycle_remainders ∧
    p.render_visible_scanlines.scanline_cycle =
      p.scanline_cycle + (p.cycle_remainders - p.render_visible_scanlines.cycle_remainders) ∧
    mid_inv p.render_visible_scanlines ∧
    (0 < p.cycle_remainders →
      p.render_visible_scanlines.cycle_remainders < p.cycle_remainders) := by
  obtain ⟨hrem0, hidl, hbusy⟩ := hrc
  rw [render_visible_eq]
  obtain ⟨i1, i2, i3, i4, i5, iprog, inoop⟩ := stage_idle_spec p ⟨hrem0, hidl, hbusy⟩
  set q0 := stage_idle p with hq0
  obtain ⟨s1, m1, pr1, no1⟩ := stage_block1_spec q0 i5
  set q1 := stage_block1 q0 with hq1v
  obtain ⟨s2, m2, pr2, no2⟩ := stage_block2_spec q1 m1
  set q2 := stage_block2 q1 with hq2v
  obtain ⟨s3, m3, pr3, no3⟩ := stage_block3_spec q2 m2
  set q3 := stage_block3 q2 with hq3v
  obtain ⟨s4, m4, pr4, no4⟩ := stage_block4_spec q3 m3
  set q4 := stage_block4 q3 with hq4v
  have S : step_ok q0 q4 := step_ok_trans (step_ok_trans (step_ok_trans s1 s2) s3) s4
  obtain ⟨S1, S2, S3, S4, S5⟩ := S
  refine ⟨by rw [S1, i1], S3 i2, le_trans S4 i3, by rw [S5, i4]; ring, m4, ?_⟩
  intro hp
  by_cases hid : p.idle_cycle = true
  · have h0 := iprog hid hp
    omega
  · have hne : p.idle_cycle = false := by
      cases hpe : p.idle_cycle
      · rfl
      · exact absurd hpe hid
    have hq0p : q0 = p := inoop hne
    have hb := hbusy hne
    obtain ⟨hbl, hbh, _⟩ := hb
    have hcase : p.scanline_cycle < 257 ∨ (256 < p.scanline_cycle ∧ p.scanline_cycle < 321) ∨
        (320 < p.scanline_cycle ∧ p.scanline_cycle < 337) ∨
        (336 < p.scanline_cycle ∧ p.scanline_cycle < 341) := by omega
    rcases hcase with h | h | h | h
    · have hx := pr1 (by rw [hq0p]; omega) (by rw [hq0p]; omega) (by rw [hq0p]; exact hp)
      rw [hq0p] at hx
      have c2 := s2.2.2.2.1
      have c3 := s3.2.2.2.1
      have c4 := s4.2.2.2.1
      omega
    · have hn1 : q1 = q0 := no1 (by rw [hq0p]; omega)
      have hx := pr2 (by rw [hn1, hq0p]; omega) (by rw [hn1, hq0p]; omega)
        (by rw [hn1, hq0p]; exact hp)
      rw [hn1, hq0p] at hx
      have c3 := s3.2.2.2.1
      have c4 := s4.2.2.2.1
      omega
    · have hn1 : q1 = q0 := no1 (by rw [hq0p]; omega)
      have hn2 : q2 = q1 := no2 (by rw [hn1, hq0p]; omega)
      have hx := pr3 (by rw [hn2, hn1, hq0p]; omega) (by rw [hn2, hn1, hq0p]; omega)
        (by rw [hn2, hn1, hq0p]; exact hp)
      rw [hn2, hn1, hq0p] at hx
      have c4 := s4.2.2.2.1
      omega
    · have hn1 : q1 = q0 := no1 (by rw [hq0p]; omega)
      have hn2 : q2 = q1 := no2 (by rw [hn1, hq0p]; omega)
      have hn3 : q3 = q2 := no3 (by rw [hn2, hn1, hq0p]; omega)
      have hx := pr4 (by rw [hn3, hn2, hn1, hq0p]; omega) (by rw [hn3, hn2, hn1, hq0p]; omega)
        (by rw [hn3, hn2, hn1, hq0p]; exact hp)
      rw [hn3, hn2, hn1, hq0p] at hx
      omega

/-- On a render scanline (scanline < 240 or 261) a process_internal
pass is the render pass followed by the end-of-scanline wrap; the
blank-scanline branch does not fire. -/
theorem process_internal_render_eq (p : PPU) (regs : PPURegisters)
    (hs : p.scanline < 240 ∨ p.scanline = 261)
    (hA : p.render_visible_scanlines.scanline = p.scanline) :
    PPU.process_internal p regs =
      (if p.render_visible_scanlines.scanline_cycle == 341 then
        (if p.render_visible_scanlines.scanline + 1 == 262 then
          { p.render_visible_scanlines with scanline_cycle := 0, scanline := 0, idle_cycle := true, frame_cycle := 0 }
        else { p.render_visible_scanlines with scanline_cycle := 0, scanline := p.render_visible_scanlines.scanline + 1, idle_cycle := true })
      else p.render_visible_scanlines, regs, PPUResult.Ok, false) := by
  simp only [PPU.process_internal]
  have hc1 : (decide (p.scanline < 240) || p.scanline == 261) = true := by
    simp only [Bool.or_eq_true, decide_eq_true_eq, beq_iff_eq]
    exact hs
  rw [if_pos hc1]
  have hc2 : ¬((decide (p.render_visible_scanlines.scanline ≥ 240) &&
      decide (p.render_visible_scanlines.scanline < 261)) = true) := by
    simp only [Bool.and_eq_true, decide_eq_true_eq, hA]
    omega
  rw [if_neg hc2]

/-- PPUInv for a state resting at dot 0 of some scanline with the idle
flag set and the fetch machinery reset. -/
theorem PPUInv_idle0 (q : PPU) (h1 : 0 ≤ q.scanline) (h2 : q.scanline ≤ 261)
    (h5 : 0 ≤ q.cycle_remainders) (h6 : q.idle_cycle = true) (h7 : q.scanline_cycle = 0)
    (h8 : q.cycle_deduction = 0) (h9 : q.fetch_state = FetchState.NameTable) : PPUInv q := by
  refine ⟨h1, h2, by omega, by omega, h5,
    fun _ => ⟨h5, fun _ => ⟨h7, h8, h9⟩, fun hf => ?_⟩, fun _ _ => ⟨h8, h6, h9⟩⟩
  rw [h6] at hf
  cases hf

/-- PPUInv for a mid-scanline state of the blank region. -/
theorem PPUInv_mid_blank (q : PPU) (h1 : 240 ≤ q.scanline) (h2 : q.scanline ≤ 260)
    (h3 : 0 ≤ q.scanline_cycle) (h4 : q.scanline_cycle ≤ 340)
    (h5 : 0 ≤ q.cycle_remainders) (h6 : q.idle_cycle = true)
    (h8 : q.cycle_deduction = 0) (h9 : q.fetch_state = FetchState.NameTable) : PPUInv q :=
  ⟨by omega, by omega, h3, h4, h5, fun hr => absurd hr (by omega), fun _ _ => ⟨h8, h6, h9⟩⟩

/-- PPUInv for a mid-scanline state of a render scanline. -/
theorem PPUInv_render_state (q : PPU) (h0 : 0 ≤ q.scanline)
    (hsl : q.scanline < 240 ∨ q.scanline = 261) (hm : mid_inv q)
    (h340 : q.scanline_cycle ≤ 340) : PPUInv q := by
  obtain ⟨hrem, hc⟩ := hm
  have hscb : 0 ≤ q.scanline_cycle := by
    rcases hc with ⟨_, h7, _⟩ | ⟨_, hb⟩
    · omega
    · obtain ⟨hbl, _⟩ := hb
      omega
  exact ⟨h0, by omega, hscb, h340, hrem, fun _ => mid_inv_render q ⟨hrem, hc⟩,
    fun hb1 hb2 => absurd hsl (by omega)⟩

/-- One process_internal pass from the machine invariant: the invariant
is preserved, remainders are consumed one-for-one into frame position
(mod one frame), the ghost VBlank flag fires exactly when the pass
crosses dot (241, 1), the register file gains exactly a set_vblank on
that pass, and the result signals VBlankNMI exactly when NMI generation
is enabled at that moment. -/
theorem process_internal_spec (p : PPU) (regs : PPURegisters) (hInv : PPUInv p) :
    PPUInv (PPU.process_internal p regs).1 ∧
    0 ≤ (PPU.process_internal p regs).1.cycle_remainders ∧
    (PPU.process_internal p regs).1.cycle_remainders ≤ p.cycle_remainders ∧
    (0 < p.cycle_remainders →
      (PPU.process_internal p regs).1.cycle_remainders < p.cycle_remainders) ∧
    (p.cycle_remainders = 0 →
      PPU.process_internal p regs = (p, regs, PPUResult.Ok, false)) ∧
    ppu_pos (PPU.process_internal p regs).1 =
      (ppu_pos p +
        (p.cycle_remainders - (PPU.process_internal p regs).1.cycle_remainders).toNat) % 89342 ∧
    ((PPU.process_internal p regs).2.2.2 = true ↔
      vblank_count (ppu_pos p)
        (p.cycle_remainders - (PPU.process_internal p regs).1.cycle_remainders).toNat = 1) ∧
    vblank_count (ppu_pos p)
      (p.cycle_remainders - (PPU.process_internal p regs).1.cycle_remainders).toNat ≤ 1 ∧
    (PPU.process_internal p regs).2.1 =
      (if (PPU.process_internal p regs).2.2.2 = true then regs.set_vblank else regs) ∧
    ((PPU.process_internal p regs).2.2.1 = PPUResult.VBlankNMI ↔
      (PPU.process_internal p regs).2.2.2 = true ∧ regs.should_generate_nmi = true) := by
  obtain ⟨g1, g2, g3, g4, g5, grc, gbl⟩ := hInv
  by_cases hs : p.scanline < 240 ∨ p.scanline = 261
  · -- render scanline
    obtain ⟨R1, R2, R3, R4, R5, R6⟩ := render_spec p (grc hs) g4
    rw [process_internal_render_eq p regs hs R1]
    set A := p.render_visible_scanlines with hAdef
    have hA340 : A.scanline_cycle ≤ 341 ∧ 0 ≤ A.scanline_cycle := by
      obtain ⟨_, hc⟩ := R5
      rcases hc with ⟨_, h7, _⟩ | ⟨_, ⟨hbl, hbh, _⟩⟩
      · omega
      · omega
    by_cases h341 : A.scanline_cycle = 341
    · have hb341 : (A.scanline_cycle == 341) = true := by simpa using h341
      rw [if_pos hb341]
      have hAded : A.cycle_deduction = 0 ∧ A.fetch_state = FetchState.NameTable := by
        obtain ⟨hrm, hc⟩ := R5
        rcases hc with ⟨_, h7, _⟩ | ⟨_, ⟨_, _, hd⟩⟩
        · exact absurd h341 (by omega)
        · rcases hd with ⟨ho, hb339, _, _⟩ | ⟨he, _, _⟩ | ⟨_, hd0, hst⟩
          · exact absurd h341 (by omega)
          · exact absurd h341 (by omega)
          · exact ⟨hd0, hst⟩
      have hnz : p.cycle_remainders = 0 → False := by
        intro hz
        have hAp : A = p := by
          rw [hAdef]
          exact render_zero p hz
        rw [hAp] at h341
        omega
      by_cases h262 : A.scanline + 1 = 262
      · have hb262 : (A.scanline + 1 == 262) = true := by simpa using h262
        rw [if_pos hb262]
        have hps : p.scanline = 261 := by omega
        have hcnt : vblank_count (ppu_pos p)
            ((p.cycle_remainders - A.cycle_remainders).toNat) = 0 := by
          unfold vblank_count ppu_pos
          omega
        refine ⟨?_, R2, R3, R6, fun hz => absurd hz (fun h => hnz h), ?_, ?_, ?_, ?_, ?_⟩
        · exact PPUInv_idle0 _ (by dsimp only; omega) (by dsimp only; omega)
            (by dsimp only; exact R2) rfl rfl (by dsimp only; exact hAded.1)
            (by dsimp only; exact hAded.2)
        · unfold ppu_pos
          dsimp only
          omega
        · dsimp only
          simp [hcnt]
        · dsimp only
          simp [hcnt]
        · simp
        · simp
      · have hb262 : ¬((A.scanline + 1 == 262) = true) := by simpa using h262
        rw [if_neg hb262]
        have hps : p.scanline < 240 := by
          rcases hs with h | h
          · exact h
          · exact absurd h262 (by omega)
        have hcnt : vblank_count (ppu_pos p)
            ((p.cycle_remainders - A.cycle_remainders).toNat) = 0 := by
          unfold vblank_count ppu_pos
          omega
        refine ⟨?_, R2, R3, R6, fun hz => absurd hz (fun h => hnz h), ?_, ?_, ?_, ?_, ?_⟩
        · exact PPUInv_idle0 _ (by dsimp only; omega) (by dsimp only; omega)
            (by dsimp only; exact R2) rfl rfl (by dsimp only; exact hAded.1)
            (by dsimp only; exact hAded.2)
        · unfold ppu_pos
          dsimp only
          omega
        · dsimp only
          simp [hcnt]
        · dsimp only
          simp [hcnt]
        · simp
        · simp
    · have hb341 : ¬((A.scanline_cycle == 341) = true) := by simpa using h341
      rw [if_neg hb341]
      have hcnt : vblank_count (ppu_pos p)
          ((p.cycle_remainders - A.cycle_remainders).toNat) = 0 := by
        unfold vblank_count ppu_pos
        omega
      refine ⟨?_, R2, R3, R6, ?_, ?_, ?_, ?_, ?_, ?_⟩
      · exact PPUInv_render_state A (by omega) (by omega) R5 (by omega)
      · intro hz
        have hAp : A = p := by
          rw [hAdef]
          exact render_zero p hz
        rw [hAp]
      · unfold ppu_pos
        dsimp only
        omega
      · simp [hcnt]
      · simp [hcnt]
      · simp
      · simp
  · -- blank scanline
    have hb1 : 240 ≤ p.scanline := by omega
    have hb2 : p.scanline ≤ 260 := by omega
    obtain ⟨hded, hidle, hnt⟩ := gbl hb1 hb2
    simp only [PPU.process_internal]
    have hc1 : ¬((decide (p.scanline < 240) || p.scanline == 261) = true) := by
      simp only [Bool.or_eq_true, decide_eq_true_eq, beq_iff_eq]
      exact hs
    rw [if_neg hc1]
    have hc2 : (decide (p.scanline ≥ 240) && decide (p.scanline < 261)) = true := by
      simp only [Bool.and_eq_true, decide_eq_true_eq]
      omega
    rw [if_pos hc2]
    rcases spend_cases p (min p.cycle_remainders (341 - p.scanline_cycle)) with
      ⟨h0, hsp⟩ | ⟨h0, hle, hsp⟩ | ⟨h0, hlt, hsp⟩
    · -- no cycles left: the pass is the identity
      rw [hsp]
      dsimp only
      have hcv : ¬((p.scanline == 241 && decide (p.scanline_cycle < 1) &&
          decide (p.scanline_cycle ≥ 1)) = true) := by
        simp only [Bool.and_eq_true, decide_eq_true_eq, beq_iff_eq]
        omega
      rw [if_neg hcv]
      have hw341 : ¬((p.scanline_cycle == 341) = true) := by
        simp only [beq_iff_eq]
        omega
      rw [if_neg hw341]
      dsimp only
      refine ⟨⟨g1, g2, g3, g4, g5, grc, gbl⟩, g5, le_refl _, ?_, fun _ => rfl,
        ?_, ?_, ?_, ?_, ?_⟩
      · intro hp
        omega
      · unfold ppu_pos
        omega
      · refine ⟨fun h => absurd h (by decide), fun h => absurd h ?_⟩
        unfold vblank_count ppu_pos
        omega
      · unfold vblank_count ppu_pos
        omega
      · simp
      · simp
    · -- a positive spend
      rw [hsp]
      dsimp only
      by_cases hv : p.scanline = 241 ∧ p.scanline_cycle < 1 ∧
          1 ≤ p.scanline_cycle + (min p.cycle_remainders (341 - p.scanline_cycle) -
            p.cycle_deduction)
      · have hbv : (p.scanline == 241 && decide (p.scanline_cycle < 1) &&
            decide (p.scanline_cycle + (min p.cycle_remainders (341 - p.scanline_cycle) -
              p.cycle_deduction) ≥ 1)) = true := by
          simp only [Bool.and_eq_true, decide_eq_true_eq, beq_iff_eq]
          exact ⟨⟨hv.1, hv.2.1⟩, hv.2.2⟩
        rw [if_pos hbv]
        have hsc0 : p.scanline_cycle = 0 := by omega
        by_cases hn : (regs.set_vblank).should_generate_nmi = true
        · rw [if_pos hn]
          have hn2 : regs.should_generate_nmi = true := hn
          by_cases hw : p.scanline_cycle + (min p.cycle_remainders
              (341 - p.scanline_cycle) - p.cycle_deduction) = 341
          · rw [if_pos (by simpa using hw)]
            rw [if_neg (show ¬((p.scanline + 1 == 262) = true) by
              simp only [beq_iff_eq]; omega)]
            refine ⟨?_, ?_, ?_, ?_, fun hz => absurd hz h0, ?_, ?_, ?_, ?_, ?_⟩
            · exact PPUInv_idle0 _ (by dsimp only; omega) (by dsimp only; omega)
                (by dsimp only; omega) rfl rfl rfl (by dsimp only; exact hnt)
            · dsimp only
              omega
            · dsimp only
              omega
            · dsimp only
              intro hp
              omega
            · unfold ppu_pos
              dsimp only
              omega
            · dsimp only
              refine ⟨fun _ => ?_, fun _ => rfl⟩
              unfold vblank_count ppu_pos
              omega
            · dsimp only
              unfold vblank_count ppu_pos
              omega
            · simp
            · simp [hn2]
          · rw [if_neg (by simpa using hw)]
            refine ⟨?_, ?_, ?_, ?_, fun hz => absurd hz h0, ?_, ?_, ?_, ?_, ?_⟩
            · exact PPUInv_mid_blank _ (by dsimp only; omega) (by dsimp only; omega)
                (by dsimp only; omega) (by dsimp only; omega) (by dsimp only; omega)
                (by dsimp only; exact hidle) rfl (by dsimp only; exact hnt)
            · dsimp only
              omega
            · dsimp only
              omega
            · dsimp only
              intro hp
              omega
            · unfold ppu_pos
              dsimp only
              omega
            · dsimp only
              refine ⟨fun _ => ?_, fun _ => rfl⟩
              unfold vblank_count ppu_pos
              omega
            · dsimp only
              unfold vblank_count ppu_pos
              omega
            · simp
            · simp [hn2]
        · rw [if_neg hn]
          have hn2 : ¬(regs.should_generate_nmi = true) := hn
          by_cases hw : p.scanline_cycle + (min p.cycle_remainders
              (341 - p.scanline_cycle) - p.cycle_deduction) = 341
          · rw [if_pos (by simpa using hw)]
            rw [if_neg (show ¬((p.scanline + 1 == 262) = true) by
              simp only [beq_iff_eq]; omega)]
            refine ⟨?_, ?_, ?_, ?_, fun hz => absurd hz h0, ?_, ?_, ?_, ?_, ?_⟩
            · exact PPUInv_idle0 _ (by dsimp only; omega) (by dsimp only; omega)
                (by dsimp only; omega) rfl rfl rfl (by dsimp only; exact hnt)
            · dsimp only
              omega
            · dsimp only
              omega
            · dsimp only
              intro hp
              omega
            · unfold ppu_pos
              dsimp only
              omega
            · dsimp only
              refine ⟨fun _ => ?_, fun _ => rfl⟩
              unfold vblank_count ppu_pos
              omega
            · dsimp only
              unfold vblank_count ppu_pos
              omega
            · simp
            · dsimp only
              refine ⟨fun h => absurd h (by decide), fun h => absurd h.2 hn2⟩
          · rw [if_neg (by simpa using hw)]
            refine ⟨?_, ?_, ?_, ?_, fun hz => absurd hz h0, ?_, ?_, ?_, ?_, ?_⟩
            · exact PPUInv_mid_blank _ (by dsimp only; omega) (by dsimp only; omega)
                (by dsimp only; omega) (by dsimp only; omega) (by dsimp only; omega)
                (by dsimp only; exact hidle) rfl (by dsimp only; exact hnt)
            · dsimp only
              omega
            · dsimp only
              omega
            · dsimp only
              intro hp
              omega
            · unfold ppu_pos
              dsimp only
              omega
            · dsimp only
              refine ⟨fun _ => ?_, fun _ => rfl⟩
              unfold vblank_count ppu_pos
              omega
            · dsimp only
              unfold vblank_count ppu_pos
              omega
            · simp
            · dsimp only
              refine ⟨fun h => absurd h (by decide), fun h => absurd h.2 hn2⟩
      · have hbv : ¬((p.scanline == 241 && decide (p.scanline_cycle < 1) &&
            decide (p.scanline_cycle + (min p.cycle_remainders (341 - p.scanline_cycle) -
              p.cycle_deduction) ≥ 1)) = true) := by
          simp only [Bool.and_eq_true, decide_eq_true_eq, beq_iff_eq]
          omega
        rw [if_neg hbv]
        by_cases hw : p.scanline_cycle + (min p.cycle_remainders
            (341 - p.scanline_cycle) - p.cycle_deduction) = 341
        · rw [if_pos (by simpa using hw)]
          rw [if_neg (show ¬((p.scanline + 1 == 262) = true) by
            simp only [beq_iff_eq]; omega)]
          refine ⟨?_, ?_, ?_, ?_, fun hz => absurd hz h0, ?_, ?_, ?_, ?_, ?_⟩
          · exact PPUInv_idle0 _ (by dsimp only; omega) (by dsimp only; omega)
              (by dsimp only; omega) rfl rfl rfl (by dsimp only; exact hnt)
          · dsimp only
            omega
          · dsimp only
            omega
          · dsimp only
            intro hp
            omega
          · unfold ppu_pos
            dsimp only
            omega
          · dsimp only
            refine ⟨fun h => absurd h (by decide), fun h => absurd h ?_⟩
            unfold vblank_count ppu_pos
            omega
          · dsimp only
            unfold vblank_count ppu_pos
            omega
          · simp
          · simp
        · rw [if_neg (by simpa using hw)]
          refine ⟨?_, ?_, ?_, ?_, fun hz => absurd hz h0, ?_, ?_, ?_, ?_, ?_⟩
          · exact PPUInv_mid_blank _ (by dsimp only; omega) (by dsimp only; omega)
              (by dsimp only; omega) (by dsimp only; omega) (by dsimp only; omega)
              (by dsimp only; exact hidle) rfl (by dsimp only; exact hnt)
          · dsimp only
            omega
          · dsimp only
            omega
          · dsimp only
            intro hp
            omega
          · unfold ppu_pos
            dsimp only
            omega
          · dsimp only
            refine ⟨fun h => absurd h (by decide), fun h => absurd h ?_⟩
            unfold vblank_count ppu_pos
            omega
          · dsimp only
            unfold vblank_count ppu_pos
            omega
          · simp
          · simp
    · exact absurd hlt (by omega)

/-- Setting VBlank twice is the same as setting it once. -/
theorem set_vblank_idem (r : PPURegisters) :
    r.set_vblank.set_vblank = r.set_vblank := by
  unfold PPURegisters.set_vblank
  dsimp only
  congr 1
  have h128 : (128 : Nat) ||| 128 = 128 := by decide
  rw [Nat.or_assoc, h128]

/-- set_vblank touches only PPUSTATUS, so the NMI-enable check is
unchanged. -/
theorem should_generate_nmi_set_vblank (r : PPURegisters) :
    (r.set_vblank).should_generate_nmi = r.should_generate_nmi := rfl

/-- Crossing counts add over a split of the advance. -/
theorem vblank_count_add (a m n : Nat) :
    vblank_count a (m + n) = vblank_count a m + vblank_count (a + m) n := by
  unfold vblank_count
  omega

/-- Crossing counts only depend on the start position modulo a frame. -/
theorem vblank_count_mod (a n : Nat) :
    vblank_count (a % 89342) n = vblank_count a n := by
  unfold vblank_count
  omega

/-- Under the machine invariant the frame position is inside one
frame. -/
theorem ppu_pos_lt (p : PPU) (h : PPUInv p) : ppu_pos p < 89342 := by
  obtain ⟨g1, g2, g3, g4, _⟩ := h
  unfold ppu_pos
  omega

/-- The process loop runs passes until no cycles are consumed; from the
machine invariant it drains the remainders to zero, advances the frame
position by exactly the cycles drained, counts one VBlank-set per
crossing of dot (241, 1), applies exactly one set_vblank to the
registers when any crossing happened, and reports VBlankNMI exactly
when a crossing happened with NMI generation enabled. -/
theorem process_loop_spec (fuel : Nat) (p : PPU) (regs : PPURegisters)
    (res : PPUResult) (vc : Nat) (hInv : PPUInv p)
    (hfuel : p.cycle_remainders.toNat + 1 ≤ fuel) :
    PPUInv (PPU.process_loop fuel p regs res vc).1 ∧
    (PPU.process_loop fuel p regs res vc).1.cycle_remainders = 0 ∧
    ppu_pos (PPU.process_loop fuel p regs res vc).1 =
      (ppu_pos p + p.cycle_remainders.toNat) % 89342 ∧
    (PPU.process_loop fuel p regs res vc).2.2.2 =
      vc + vblank_count (ppu_pos p) p.cycle_remainders.toNat ∧
    (PPU.process_loop fuel p regs res vc).2.1 =
      (if 1 ≤ vblank_count (ppu_pos p) p.cycle_remainders.toNat then regs.set_vblank
       else regs) ∧
    (PPU.process_loop fuel p regs res vc).2.2.1 =
      (if 1 ≤ vblank_count (ppu_pos p) p.cycle_remainders.toNat ∧
          regs.should_generate_nmi = true then PPUResult.VBlankNMI else res) := by
  induction fuel generalizing p regs res vc with
  | zero => exact absurd hfuel (by omega)
  | succ fuel ih =>
    have g5 : 0 ≤ p.cycle_remainders := hInv.2.2.2.2.1
    have hposlt := ppu_pos_lt p hInv
    obtain ⟨I1, I2, I3, I4, I5, I6, I7, I8, I9, I10⟩ := process_internal_spec p regs hInv
    rcases hpe : PPU.process_internal p regs with ⟨p1, regs1, r1, v1⟩
    rw [hpe] at I1 I2 I3 I4 I5 I6 I7 I8 I9 I10
    dsimp only at I1 I2 I3 I4 I5 I6 I7 I8 I9 I10
    simp only [PPU.process_loop, hpe]
    by_cases hbreak : p.cycle_remainders = p1.cycle_remainders
    · rw [if_pos (by simpa using hbreak)]
      dsimp only
      have hz : p.cycle_remainders = 0 := by
        rcases eq_or_ne p.cycle_remainders 0 with h | h
        · exact h
        · have := I4 (by omega)
          omega
      have hid := I5 hz
      simp only [Prod.mk.injEq] at hid
      obtain ⟨e1, e2, e3, e4⟩ := hid
      have hcnt : vblank_count (ppu_pos p) p.cycle_remainders.toNat = 0 := by
        unfold vblank_count
        omega
      refine ⟨?_, ?_, ?_, ?_, ?_, ?_⟩
      · exact I1
      · rw [e1, hz]
      · rw [e1]
        omega
      · rw [e4, hcnt]
        simp
      · rw [e2, hcnt]
        rw [if_neg (show ¬(1 ≤ 0) by omega)]
      · have h1 : ¬((PPUResult.Ok == PPUResult.VBlankNMI) = true) := by decide
        have h2 : ¬(1 ≤ vblank_count (ppu_pos p) p.cycle_remainders.toNat ∧
            regs.should_generate_nmi = true) := by
          intro hh
          obtain ⟨hh1, _⟩ := hh
          rw [hcnt] at hh1
          omega
        rw [e3, if_neg h1, if_neg h2]
    · rw [if_neg (by simpa using hbreak)]
      have hlt : p1.cycle_remainders < p.cycle_remainders := by omega
      have hfuel2 : p1.cycle_remainders.toNat + 1 ≤ fuel := by omega
      obtain ⟨J1, J2, J3, J4, J5, J6⟩ := ih p1 regs1
        (if (r1 == PPUResult.VBlankNMI) = true then PPUResult.VBlankNMI else res)
        (vc + if v1 = true then 1 else 0) I1 hfuel2
      have hc1 : p.cycle_remainders.toNat =
          (p.cycle_remainders - p1.cycle_remainders).toNat +
            p1.cycle_remainders.toNat := by omega
      have hsplit : vblank_count (ppu_pos p) p.cycle_remainders.toNat =
          vblank_count (ppu_pos p) (p.cycle_remainders - p1.cycle_remainders).toNat +
          vblank_count (ppu_pos p1) p1.cycle_remainders.toNat := by
        rw [hc1, vblank_count_add, I6, vblank_count_mod]
      refine ⟨J1, J2, ?_, ?_, ?_, ?_⟩
      · rw [J3, I6]
        omega
      · rw [J4, hsplit]
        by_cases hv1 : v1 = true
        · have hk1 := I7.mp hv1
          have hite : (if v1 = true then (1 : Nat) else 0) = 1 := if_pos hv1
          rw [hite, hk1]
          omega
        · have hk1 : vblank_count (ppu_pos p)
              (p.cycle_remainders - p1.cycle_remainders).toNat = 0 := by
            have hne1 : ¬(vblank_count (ppu_pos p)
                (p.cycle_remainders - p1.cycle_remainders).toNat = 1) :=
              fun h => hv1 (I7.mpr h)
            omega
          have hite : (if v1 = true then (1 : Nat) else 0) = 0 := if_neg hv1
          rw [hite, hk1]
          omega
      · rw [J5, I9]
        by_cases hv1 : v1 = true
        · have hk1 := I7.mp hv1
          have htot : 1 ≤ vblank_count (ppu_pos p) p.cycle_remainders.toNat := by
            rw [hsplit, hk1]
            omega
          rw [if_pos hv1, set_vblank_idem, ite_self, if_pos htot]
        · have hk1 : vblank_count (ppu_pos p)
              (p.cycle_remainders - p1.cycle_remainders).toNat = 0 := by
            have hne1 : ¬(vblank_count (ppu_pos p)
                (p.cycle_remainders - p1.cycle_remainders).toNat = 1) :=
              fun h => hv1 (I7.mpr h)
            omega
          have hksame : vblank_count (ppu_pos p) p.cycle_remainders.toNat =
              vblank_count (ppu_pos p1) p1.cycle_remainders.toNat := by
            omega
          rw [if_neg hv1, hksame]
      · rw [J6, I9]
        have hsn : (if v1 = true then regs.set_vblank else regs).should_generate_nmi =
            regs.should_generate_nmi := by
          by_cases hv1 : v1 = true
          · rw [if_pos hv1, should_generate_nmi_set_vblank]
          · rw [if_neg hv1]
        rw [hsn]
        by_cases hv1 : v1 = true
        · have hk1 := I7.mp hv1
          have htot : 1 ≤ vblank_count (ppu_pos p) p.cycle_remainders.toNat := by
            rw [hsplit, hk1]
            omega
          by_cases hsn2 : regs.should_generate_nmi = true
          · have hr1 : r1 = PPUResult.VBlankNMI := I10.mpr ⟨hv1, hsn2⟩
            have hbeq : (PPUResult.VBlankNMI == PPUResult.VBlankNMI) = true := by decide
            have hcondT : 1 ≤ vblank_count (ppu_pos p) p.cycle_remainders.toNat ∧
                regs.should_generate_nmi = true := ⟨htot, hsn2⟩
            rw [hr1, if_pos hbeq, ite_self, if_pos hcondT]
          · have hr1 : (r1 == PPUResult.VBlankNMI) = false := by
              rcases r1 with _ | _
              · rfl
              · exact absurd (I10.mp rfl).2 hsn2
            have hcond2 : ¬(1 ≤ vblank_count (ppu_pos p1) p1.cycle_remainders.toNat ∧
                regs.should_generate_nmi = true) := fun hh => hsn2 hh.2
            have hcondT : ¬(1 ≤ vblank_count (ppu_pos p) p.cycle_remainders.toNat ∧
                regs.should_generate_nmi = true) := fun hh => hsn2 hh.2
            have hfbeq : ¬((false : Bool) = true) := by decide
            rw [hr1, if_neg hfbeq, if_neg hcond2, if_neg hcondT]
        · have hk1 : vblank_count (ppu_pos p)
              (p.cycle_remainders - p1.cycle_remainders).toNat = 0 := by
            have hne1 : ¬(vblank_count (ppu_pos p)
                (p.cycle_remainders - p1.cycle_remainders).toNat = 1) :=
              fun h => hv1 (I7.mpr h)
            omega
          have hr1 : (r1 == PPUResult.VBlankNMI) = false := by
            rcases r1 with _ | _
            · rfl
            · exact absurd (I10.mp rfl).1 hv1
          have hfbeq : ¬((false : Bool) = true) := by decide
          have hksame : vblank_count (ppu_pos p) p.cycle_remainders.toNat =
              vblank_count (ppu_pos p1) p1.cycle_remainders.toNat := by
            omega
          rw [hr1, if_neg hfbeq, hksame]

/-- Adding nonnegative cycles to the budget preserves the machine
invariant. -/
theorem PPUInv_add_rem (p : PPU) (n : Int) (hInv : PPUInv p) (hn : 0 ≤ n) :
    PPUInv { p with cycle_remainders := p.cycle_remainders + n } := by
  obtain ⟨g1, g2, g3, g4, g5, grc, gbl⟩ := hInv
  refine ⟨g1, g2, g3, g4, by dsimp only; omega, fun hr => ?_, fun h1 h2 => gbl h1 h2⟩
  obtain ⟨hrem, hidl, hbusy⟩ := grc hr
  exact ⟨by dsimp only; omega, hidl, hbusy⟩

/-- C5: for every PPU step (PPU::process with a nonnegative cycle
budget, from a state satisfying the machine invariant), the invariant
is preserved and the (scanline, dot) position — read off as
scanline * 341 + dot — advances by exactly the cycles granted, modulo
one frame of 262 scanlines of 341 dots; the VBlank flag is set exactly
once per crossing of dot 1 of scanline 241 (vblank_count counts exactly
the crossings of that point, once per frame), the registers gain exactly
a set_vblank when a crossing happened, and the step returns VBlankNMI
exactly when a crossing happened while PPUCTRL bit 7 (should_generate_nmi)
was set. -/
theorem c5_ppu_frame_advance (p : PPU) (regs : PPURegisters) (n : Int)
    (hInv : PPUInv p) (hn : 0 ≤ n) :
    PPUInv (p.process regs n).1 ∧
    (p.process regs n).1.cycle_remainders = 0 ∧
    ppu_pos (p.process regs n).1 =
      (ppu_pos p + (p.cycle_remainders + n).toNat) % 89342 ∧
    (p.process regs n).2.2.2 =
      vblank_count (ppu_pos p) (p.cycle_remainders + n).toNat ∧
    ((p.process regs n).2.2.1 = PPUResult.VBlankNMI ↔
      1 ≤ (p.process regs n).2.2.2 ∧ regs.should_generate_nmi = true) ∧
    (p.process regs n).2.1 =
      (if 1 ≤ (p.process regs n).2.2.2 then regs.set_vblank else regs) := by
  have hInv2 := PPUInv_add_rem p n hInv hn
  obtain ⟨L1, L2, L3, L4, L5, L6⟩ := process_loop_spec
    ({ p with cycle_remainders := p.cycle_remainders + n }.cycle_remainders.toNat + 2)
    { p with cycle_remainders := p.cycle_remainders + n } regs PPUResult.Ok 0 hInv2
    (by dsimp only; omega)
  have hpe : p.process regs n = PPU.process_loop
      ({ p with cycle_remainders := p.cycle_remainders + n }.cycle_remainders.toNat + 2)
      { p with cycle_remainders := p.cycle_remainders + n } regs PPUResult.Ok 0 := rfl
  rw [hpe]
  dsimp only at L3 L4 L5 L6
  have hpp : ppu_pos { p with cycle_remainders := p.cycle_remainders + n } = ppu_pos p := rfl
  rw [hpp] at L3 L4 L5 L6
  rw [Nat.zero_add] at L4
  refine ⟨L1, L2, L3, L4, ?_, ?_⟩
  · rw [L6, L4]
    by_cases hc : 1 ≤ vblank_count (ppu_pos p) (p.cycle_remainders + n).toNat ∧
        regs.should_generate_nmi = true
    · rw [if_pos hc]
      exact ⟨fun _ => hc, fun _ => rfl⟩
    · rw [if_neg hc]
      exact ⟨fun h => absurd h (by decide), fun h => absurd h hc⟩
  · rw [L5, L4]

/-- The power-up PPU state satisfies the machine invariant. -/
theorem PPUInv_new : PPUInv PPU.new :=
  ⟨by decide, by decide, by decide, by decide, by decide,
   fun _ => ⟨by decide, fun _ => ⟨rfl, rfl, rfl⟩, fun hf => absurd hf (by decide)⟩,
   fun h1 _ => absurd h1 (by decide)⟩

theorem c5_ppu_frame_advance_witness :
    (PPUInv PPU.new ∧ 0 ≤ (100 : Int)) ∧
    (PPUInv (PPU.new.process PPURegisters.new 100).1 ∧
     (PPU.new.process PPURegisters.new 100).1.cycle_remainders = 0 ∧
     ppu_pos (PPU.new.process PPURegisters.new 100).1 =
       (ppu_pos PPU.new + (PPU.new.cycle_remainders + 100).toNat) % 89342 ∧
     (PPU.new.process PPURegisters.new 100).2.2.2 =
       vblank_count (ppu_pos PPU.new) (PPU.new.cycle_remainders + 100).toNat ∧
     ((PPU.new.process PPURegisters.new 100).2.2.1 = PPUResult.VBlankNMI ↔
       1 ≤ (PPU.new.process PPURegisters.new 100).2.2.2 ∧
         PPURegisters.new.should_generate_nmi = true) ∧
     (PPU.new.process PPURegisters.new 100).2.1 =
       (if 1 ≤ (PPU.new.process PPURegisters.new 100).2.2.2 then PPURegisters.new.set_vblank
        else PPURegisters.new)) :=
  ⟨⟨PPUInv_new, by decide⟩,
    c5_ppu_frame_advance PPU.new PPURegisters.new 100 PPUInv_new (by decide)⟩

end RustNes
